import Mathlib

/-!
Verification development for the hbfa-ops-erp Polaris reporting pipeline.

The definitions below are a shallow embedding of the reconciliation and
override-resolution engine found in `tools/polaris` (`report_pdf.py`,
`report_pdf_hso.py`, `combined.py`, `processing.py`).  Timestamps are
modelled as pairs of natural numbers (calendar day plus an intra-day
ordinal); the external lenient date parser (`pandas.to_datetime`,
`_parse_iso8601`) is modelled at the boundary: an override value either is
blank, is non-blank but unparseable text, or parses to a concrete instant.
Python `dict`s are modelled as association lists with update-in-place /
append-on-fresh-key semantics (`upsert`), which preserves both lookup and
iteration-order behaviour of CPython dicts.
-/

/-- An absolute instant: a calendar day number plus a within-day ordinal.
`day` is what `parsed.tz_convert("UTC").date()` compares against today;
the full pair is what candidate timestamps are sorted by. -/
structure Instant where
  day : Nat
  tod : Nat
deriving DecidableEq, Repr

def instLEb (a b : Instant) : Bool :=
  a.day < b.day || (a.day == b.day && a.tod ≤ b.tod)

def instLTb (a b : Instant) : Bool :=
  a.day < b.day || (a.day == b.day && a.tod < b.tod)

/-- A raw override value as seen by the milestone machinery: `blank` stands
for Python `None`, `""` or `False` (the values skipped by the
`value in (None, "", False)` guards); `text` is a non-blank value the
external date parser rejects; `date` is a non-blank value parsing to the
given instant. -/
inductive OValue where
  | blank
  | text (s : String)
  | date (i : Instant)
deriving DecidableEq, Repr

def ovParse : OValue → Option Instant
  | .date i => some i
  | _ => none

def isBlank : OValue → Bool
  | .blank => true
  | _ => false

/-- Rendering used where the source applies `str(...)` to an override
value (e.g. `_resolve_ops_coe`).  Injective on non-blank values. -/
def ovStr : OValue → String
  | .blank => ""
  | .text s => s
  | .date i => "@" ++ toString i.day ++ "." ++ toString i.tod

/-- Association-list lookup: first binding wins, mirroring a Python dict
(keys are unique when the list is only ever extended through `upsert`). -/
def lookupA {κ ν : Type} [DecidableEq κ] : List (κ × ν) → κ → Option ν
  | [], _ => none
  | (k, v) :: l, q => if k = q then some v else lookupA l q

/-- Python-dict assignment: replace the binding in place when the key is
present, append otherwise (preserving CPython insertion order). -/
def upsert {κ ν : Type} [DecidableEq κ] : List (κ × ν) → κ → ν → List (κ × ν)
  | [], k, v => [(k, v)]
  | (k0, v0) :: l, k, v =>
      if k0 = k then (k, v) :: l else (k0, v0) :: upsert l k v

/-- First-success iteration, mirroring a Python `for` loop that `return`s
on the first hit. -/
def firstSome {α β : Type} (f : α → Option β) : List α → Option β
  | [] => none
  | a :: l =>
      match f a with
      | some b => some b
      | none => firstSome f l

/-- Python truthiness for an optional string: `None` and `""` are falsy. -/
def optTruthy : Option String → Bool
  | none => false
  | some s => s ≠ ""

/-- Python `a or b` on optional strings. -/
def pyOrOS (a b : Option String) : Option String :=
  if optTruthy a then a else b

/-! ### Structural string helpers

The standard library implements several `String` operations by
well-founded recursion on byte positions, which the kernel cannot unfold
when evaluating concrete witnesses.  The helpers below are structurally
recursive character-list implementations of exactly the Python string
operations the source uses (`startswith`, `strip`, `lower`, `split`,
`int(...)`, `in`). -/

def strStartsWith (s pre : String) : Bool := pre.toList.isPrefixOf s.toList

def strToLower (s : String) : String := String.mk (s.toList.map Char.toLower)

def strTrim (s : String) : String :=
  String.mk
    (((s.toList.dropWhile Char.isWhitespace).reverse.dropWhile
      Char.isWhitespace).reverse)

def strContainsChar (s : String) (c : Char) : Bool := s.toList.contains c

def splitOnCharList (c : Char) : List Char → List (List Char)
  | [] => [[]]
  | ch :: rest =>
      let r := splitOnCharList c rest
      if ch = c then [] :: r
      else
        match r with
        | [] => [[ch]]
        | h :: t => (ch :: h) :: t

def strSplitOnChar (s : String) (c : Char) : List String :=
  (splitOnCharList c s.toList).map String.mk

def digitsToNat : List Char → Nat → Nat
  | [], acc => acc
  | c :: t, acc => digitsToNat t (acc * 10 + (c.toNat - 48))

def strToNatQ (s : String) : Option Nat :=
  if s.toList ≠ [] ∧ s.toList.all Char.isDigit then
    some (digitsToNat s.toList 0)
  else none

def strToIntQ (s : String) : Option Int :=
  match s.toList with
  | '-' :: rest => (strToNatQ (String.mk rest)).map (fun n => -(n : Int))
  | _ => (strToNatQ s).map (fun n => (n : Int))

/-! ## Milestone vocabularies (report_pdf.py lines 68-175) -/

def unit_milestone_codes : List String := ["U6", "U5", "U4", "U3", "U2", "U1"]

def building_milestone_codes : List String :=
  ["B11", "B10", "B9", "B8", "B7", "B6", "B5", "B4", "B3", "B2", "B1"]

/-- `MILESTONE_KEY_MAP`: field-name synonyms per milestone code; unknown
codes map to the empty list, mirroring `MILESTONE_KEY_MAP.get(code, ())`. -/
def milestone_key_map : String → List String
  | "B1" => ["construction_release", "construction_release_cut1",
             "release_construction_cut1"]
  | "B2" => ["foundation_start", "start_foundation", "start_foundation_cut2"]
  | "B3" => ["ground_plumbing_inspection",
             "lower_foundation_ground_plumbing_inspection",
             "upper_foundation_ground_plumbing_inspection"]
  | "B4" => ["foundation_pour", "lower_foundation_pour",
             "upper_foundation_pour", "pour_foundation_slab"]
  | "B5" => ["first_floor_frame_complete",
             "first_floor_structural_steel_100_percent",
             "first_floor_frame_inspection", "raise_walls_first_floor",
             "set_second_floor_beams"]
  | "B6" => ["second_floor_frame_complete", "frame_walls_second_floor",
             "second_floor_plumbing_hvac_complete",
             "second_floor_frame_inspection_first_floor_drywall_inspection"]
  | "B7" => ["third_floor_frame_complete", "frame_third_floor_walls",
             "third_floor_plumbing_hvac_complete",
             "third_floor_frame_inspection_start",
             "plumb_line_third_floor_walls"]
  | "B8" => ["fourth_floor_frame_inspection_start",
             "fourth_floor_plumbing_hvac_complete",
             "finish_framing_inspection"]
  | "B9" => ["roof_truss_delivery", "deliver_roof_trusses",
             "load_roof_trusses"]
  | "B10" => ["roof_nail_shear_nail_inspection", "sheathing_inspection"]
  | "B11" => ["install_windows_exterior_doors", "set_window_door_frames"]
  | "U1" => ["finish_framing_inspection", "unit_frame_inspection",
             "first_floor_frame_inspection",
             "second_floor_frame_inspection_first_floor_drywall_inspection",
             "third_floor_frame_inspection_start",
             "fourth_floor_frame_inspection_start"]
  | "U2" => ["drywall_nail_inspection"]
  | "U3" => ["drywall_texture", "texture_drywall"]
  | "U4" => ["install_cabinets"]
  | "U5" => ["appliance_delivery"]
  | "U6" => ["buyer_orientation"]
  | _ => []

abbrev OvDict := List (String × OValue)

/-! ## As-of-today milestone selection (report_pdf_hso.py lines 69-101) -/

abbrev Cand := Instant × String × String × OValue

/-- Model of Python stable `sort` followed by taking `candidates[-1]`:
scan left to right, replacing the current best whenever the new timestamp
is `>=` it (so among equal timestamps the last-listed candidate wins,
exactly as a stable ascending sort followed by taking the final element). -/
def pickLast : Option Cand → List Cand → Option Cand
  | best, [] => best
  | none, c :: l => pickLast (some c) l
  | some b, c :: l => pickLast (some (if instLEb b.1 c.1 then c else b)) l

/-- `_select_latest_milestone_for_today`: collect every (code, synonym key)
whose value is non-blank and parses to a date on or before `today`, then
return the candidate with the chronologically latest timestamp. -/
def select_latest_milestone_for_today (m : OvDict) (codes : List String)
    (today : Nat) : Option (String × String × OValue) :=
  if m = [] then none
  else
    let cands := codes.flatMap (fun code =>
      (milestone_key_map code).filterMap (fun key =>
        match lookupA m key with
        | none => none
        | some v =>
            if isBlank v then none
            else
              match ovParse v with
              | none => none
              | some i => if i.day ≤ today then some (i, code, key, v) else none))
    (pickLast none cands).map (fun c => (c.2.1, c.2.2.1, c.2.2.2))

/-! ## Legacy milestone resolution (report_pdf.py lines 313-375) -/

/-- The two innermost loops of `first_match`: scan the synonym keys of one
code inside one dictionary, returning the first non-blank value found. -/
def dict_probe (d : OvDict) (keys : List String) : Option OValue :=
  firstSome (fun key =>
    match lookupA d key with
    | some v => if isBlank v then none else some v
    | none => none) keys

/-- Inner `first_match` of `_resolve_milestone`: codes outer, dictionaries
middle, synonym keys inner; first non-blank hit wins. -/
def first_match (codes : List String) (dicts : List OvDict) :
    Option (String × OValue) :=
  firstSome (fun code =>
    (firstSome (fun d => dict_probe d (milestone_key_map code)) dicts).map
      (fun v => (code, v))) codes

/-- `_resolve_milestone`: unit codes over the unit dict first; failing that,
building codes over the building dict followed by the unit dict.  The
`if unit_dicts:` / `if building_dicts:` truthiness tests of the source are
non-emptiness tests on the dictionary lists. -/
def resolve_milestone (uo bo : Option OvDict) : Option (String × OValue) :=
  let unitDicts : List OvDict := match uo with | some d => [d] | none => []
  let unitHit : Option (String × OValue) :=
    match unitDicts with
    | [] => none
    | _ => first_match unit_milestone_codes unitDicts
  match unitHit with
  | some r => some r
  | none =>
      let buildingDicts : List OvDict :=
        (match bo with | some d => [d] | none => []) ++ unitDicts
      match buildingDicts with
      | [] => none
      | _ => first_match building_milestone_codes buildingDicts

/-- `_resolve_ops_coe`: the first non-blank `projected_coe` value found in
the unit dict, then the building dict, stringified. -/
def resolve_ops_coe (uo bo : Option OvDict) : Option String :=
  firstSome (fun (src : Option OvDict) =>
    match src with
    | some d =>
        match lookupA d "projected_coe" with
        | some v => if isBlank v then none else some (ovStr v)
        | none => none
    | none => none) [uo, bo]

/-- One candidate probe of the selector, named so that proofs can reason
about it by cases. -/
def candOf (m : OvDict) (today : Nat) (code key : String) : Option Cand :=
  match lookupA m key with
  | none => none
  | some v =>
      if isBlank v then none
      else
        match ovParse v with
        | none => none
        | some i => if i.day ≤ today then some (i, code, key, v) else none

/-- The candidate list scanned by `_select_latest_milestone_for_today`. -/
def selectCands (m : OvDict) (codes : List String) (today : Nat) : List Cand :=
  codes.flatMap (fun code => (milestone_key_map code).filterMap (candOf m today code))

/-! ## Disjointness of synonym keys across a code vocabulary -/

def disjointKeysB (a b : String) : Bool :=
  (milestone_key_map a).all (fun k => !(decide (k ∈ milestone_key_map b)))

def codesDisjointB : List String → Bool
  | [] => true
  | c :: l => l.all (fun c2 => disjointKeysB c c2) && codesDisjointB l

/-- A single (key, probe) step of the scan: present and non-blank. -/
def probe_key (d : OvDict) (key : String) : Option OValue :=
  match lookupA d key with
  | some v => if isBlank v then none else some v
  | none => none

/-! ## Override index entries and key normalisation
(report_pdf.py lines 227-284) -/

/-- One entry of the milestone override index.  `build_ops_override_index`
always stores these five fields; `_reduce_overrides_asof_today` re-emits
entries WITHOUT the `pre_kickoff` key, which downstream is read through
`.get("pre_kickoff")` and hence behaves exactly like `False` — reduced
entries are therefore modelled with `pre_kickoff := false`. -/
structure Entry where
  overrides : OvDict
  timestamp : Option Instant
  building_id : Option String
  normalized_building_id : Option String
  pre_kickoff : Bool
deriving DecidableEq, Repr

abbrev Index := List ((String × String) × Entry)

/-- `_normalize_building_id`: lowercase, keep alphanumerics, empty → absent. -/
def normalize_building_id (v : Option String) : Option String :=
  match v with
  | none => none
  | some s =>
      let t := strTrim s
      if t = "" then none
      else
        let n := String.mk ((strToLower t).toList.filter Char.isAlphanum)
        if n = "" then none else some n

/-- `_build_building_lookup_key`. -/
def build_building_lookup_key (normalized : Option String) : String :=
  "#building::" ++
    (match normalized with
     | some s => if s = "" then "unknown" else s
     | none => "unknown")

/-- `_normalize_project_id`: `None` becomes `""`, otherwise strip + lower. -/
def normalize_project_id (v : Option String) : String :=
  match v with
  | none => ""
  | some s => strToLower (strTrim s)

/-- `_normalize_unit_number` on textual unit numbers: trim, empty → absent,
all-digit text is canonicalised through `int(...)`, other text passes
through.  (Numeric raw values reach this function as their decimal
rendering; float-typed strings are outside the model.) -/
def normalize_unit_number_str (s : String) : Option String :=
  let t := strTrim s
  if t = "" then none
  else if t.toList.all Char.isDigit then
    match strToNatQ t with
    | some n => some (toString n)
    | none => some t
  else some t

def normalize_unit_number (v : Option String) : Option String :=
  match v with
  | none => none
  | some s => normalize_unit_number_str s

/-! ## The as-of-today reducer (report_pdf_hso.py lines 104-234) -/

/-- The slice of a `building_selection` record that later steps read: only
the `code` field is consulted (`building_entry.get("code")`); the stashed
payload is never used downstream and is omitted. -/
structure BSel where
  code : Option String
deriving DecidableEq, Repr

/-- The reduced entry and selection record produced for one building entry
(lines 142-174).  Reduced entries drop `pre_kickoff` (modelled as
`false`, see `Entry`). -/
def reduced_building_entry (today : Nat) (be : Entry) : Entry × BSel :=
  match select_latest_milestone_for_today be.overrides building_milestone_codes today with
  | none =>
      ({ overrides := [], timestamp := be.timestamp,
         building_id := be.building_id,
         normalized_building_id := be.normalized_building_id,
         pre_kickoff := false }, ⟨none⟩)
  | some (c, k, v) =>
      ({ overrides := [(k, v)], timestamp := be.timestamp,
         building_id := be.building_id,
         normalized_building_id := be.normalized_building_id,
         pre_kickoff := false }, ⟨some c⟩)

def process_building (today : Nat) (p : String)
    (acc : Index × List (String × BSel)) (kv : String × Entry) :
    Index × List (String × BSel) :=
  let es := reduced_building_entry today kv.2
  (upsert acc.1 (p, kv.1) es.1, upsert acc.2 kv.1 es.2)

/-- The fallback reduced entry inserted when a project has no building
entries at all (lines 176-187). -/
def fallback_building_entry : Entry :=
  { overrides := [], timestamp := none, building_id := none,
    normalized_building_id := none, pre_kickoff := false }

/-- Which building selection a unit is matched against (lines 195-206):
the building keyed by the unit's truthy `normalized_building_id` when that
key is in `building_selection`, otherwise the first selection
(`next(iter(building_selection.items()))`; the dummy default is
unreachable because the selection dict is never empty). -/
def unit_chosen (bsel : List (String × BSel)) (nb : Option String) :
    String × BSel :=
  match (if optTruthy nb then some (build_building_lookup_key nb) else none) with
  | some pref =>
      match lookupA bsel pref with
      | some s => (pref, s)
      | none => bsel.headD ("", ⟨none⟩)
  | none => bsel.headD ("", ⟨none⟩)

/-- The metadata-only reduced entry written for every unit (lines 211-216);
its building identity backfills from the reduced entry of the matched
building.  Reduced entries drop `pre_kickoff` (modelled as `false`). -/
def unit_base_entry (ue : Entry) (bres : Option Entry) : Entry :=
  { overrides := [],
    timestamp := ue.timestamp,
    building_id := pyOrOS ue.building_id (bres.bind Entry.building_id),
    normalized_building_id :=
      pyOrOS ue.normalized_building_id
        (bres.bind Entry.normalized_building_id),
    pre_kickoff := false }

/-- One iteration of the unit loop (lines 189-232).  Building-keyed entries
are skipped; otherwise the unit is matched to its building via
`normalized_building_id` (falling back to the first building selection),
a metadata-only entry is recorded, and — only when the matched building
code is the terminal `"B11"` — the latest qualifying unit milestone
replaces it. -/
def process_unit (today : Nat) (p : String) (bsel : List (String × BSel))
    (res : Index) (kv : String × Entry) : Index :=
  if strStartsWith kv.1 "#building" then res
  else
    let ue := kv.2
    let chosen := unit_chosen bsel ue.normalized_building_id
    let base := unit_base_entry ue (lookupA res (p, chosen.1))
    let res2 := upsert res (p, kv.1) base
    if chosen.2.code ≠ some "B11" then res2
    else
      match select_latest_milestone_for_today ue.overrides unit_milestone_codes today with
      | none => res2
      | some (_, uk, uv) =>
          upsert res2 (p, kv.1) { base with overrides := [(uk, uv)] }

/-- The overrides component of the final reduced entry of a unit, as a
function of the matched building selection (it does not depend on the
metadata backfill). -/
def unit_reduced_overrides (today : Nat) (bsel : List (String × BSel))
    (ue : Entry) : OvDict :=
  if (unit_chosen bsel ue.normalized_building_id).2.code ≠ some "B11" then []
  else
    match select_latest_milestone_for_today ue.overrides unit_milestone_codes today with
    | none => []
    | some (_, uk, uv) => [(uk, uv)]

/-- The building loop plus the no-building fallback (lines 134-187): fold
the reduced building entries into the result, collecting the
`building_selection` dict; when no building entry exists, insert the
metadata-only fallback under the `unknown` building key. -/
def building_phase (today : Nat) (p : String) (res : Index)
    (es : List (String × Entry)) : Index × List (String × BSel) :=
  let bEntries := es.filter (fun kv => strStartsWith kv.1 "#building")
  let step1 := bEntries.foldl (process_building today p) (res, [])
  if step1.2 = [] then
    (upsert step1.1 (p, build_building_lookup_key none) fallback_building_entry,
     [(build_building_lookup_key none, ⟨none⟩)])
  else step1

def process_project (today : Nat) (res : Index)
    (pg : String × List (String × Entry)) : Index :=
  let step2 := building_phase today pg.1 res pg.2
  pg.2.foldl (process_unit today pg.1 step2.2) step2.1

/-- `projects.setdefault(project_key, {})[unit_key] = payload`. -/
def upsert_group (gs : List (String × List (String × Entry)))
    (p u : String) (e : Entry) : List (String × List (String × Entry)) :=
  match lookupA gs p with
  | some es => upsert gs p (upsert es u e)
  | none => gs ++ [(p, [(u, e)])]

def group_by_project (idx : Index) : List (String × List (String × Entry)) :=
  idx.foldl (fun gs kv => upsert_group gs kv.1.1 kv.1.2 kv.2) []

/-- `_reduce_overrides_asof_today`. -/
def reduce_overrides_asof_today (idx : Index) (today : Nat) : Index :=
  if idx = [] then []
  else (group_by_project idx).foldl (process_project today) []

/-! ## Shape invariant of the reducer output -/

/-- Every reduced entry carries either no milestone binding or exactly the
single binding chosen by the as-of-today selector. -/
def ReducedShape (today : Nat) (e : Entry) : Prop :=
  e.overrides = [] ∨
    ∃ (m : OvDict) (codes : List String) (c k : String) (v : OValue),
      (codes = building_milestone_codes ∨ codes = unit_milestone_codes) ∧
      select_latest_milestone_for_today m codes today = some (c, k, v) ∧
      e.overrides = [(k, v)]

def IndexShaped (today : Nat) (res : Index) : Prop :=
  ∀ k e, lookupA res k = some e → ReducedShape today e

/-! ## Association-list facts used to trace the reducer -/

def keysNodup {κ ν : Type} (l : List (κ × ν)) : Prop :=
  l.Pairwise (fun a b => a.1 ≠ b.1)

/-! ## Grouping facts (`projects.setdefault` loop, lines 120-123) -/

def lookupPU (gs : List (String × List (String × Entry))) (p u : String) :
    Option Entry :=
  (lookupA gs p).bind (fun es => lookupA es u)

def GroupsInnerNodup (gs : List (String × List (String × Entry))) : Prop :=
  ∀ p es, lookupA gs p = some es → keysNodup es

/-! ## Building the override index (report_pdf.py lines 378-491)

Raw DynamoDB items are modelled after `_unwrap_attr` and the JSON decode
have run: attribute wrappers are already stripped, and an item whose
`data` field is absent, is not a mapping, or is a string that fails
`json.loads` carries `data := none` (the source `continue`s on it).
The `building_id` / `buildingId` synonym pair of a payload is modelled as
the single coalesced field the source computes from it. -/

structure Payload where
  building_id : Option String
  unit_number : Option String
  overrides : Option OvDict
  pre_kickoff : Option Bool
deriving DecidableEq, Repr

structure ItemData where
  building : Option Payload
  unit : Option Payload
deriving DecidableEq, Repr

/-- One raw item; `updated_at` holds the `_parse_iso8601` result (absent
when the timestamp is missing or unparseable). -/
structure Item where
  project_id : Option String
  unit_number : Option String
  sk : Option String
  pk : Option String
  data : Option ItemData
  updated_at : Option Instant
  building_id : Option String
deriving DecidableEq, Repr

/-- `_extract_pre_kickoff_flag`: first payload whose `pre_kickoff` is an
actual boolean wins; default `False`. -/
def extract_pre_kickoff_flag (ps : List (Option Payload)) : Bool :=
  (firstSome (fun op => op.bind Payload.pre_kickoff) ps).getD false

/-- `not existing or (existing_ts and timestamp and existing_ts < timestamp)`:
the guard used by all three entry-write sites. -/
def should_replace (existing : Option Entry) (ts : Option Instant) : Bool :=
  match existing with
  | none => true
  | some e =>
      match e.timestamp, ts with
      | some et, some t => instLTb et t
      | _, _ => false

/-- `bool(timestamp and (not existing_ts or (existing_ts and existing_ts <
timestamp)))` from the metadata-refresh block (line 435). -/
def is_newer_ts (existing_ts ts : Option Instant) : Bool :=
  match ts with
  | none => false
  | some t =>
      match existing_ts with
      | none => true
      | some et => instLTb et t

/-- The `project_id` resolution of lines 381-386: explicit field, else the
part of `pk` before its first `#`, then `_normalize_project_id`; empty
means the item is skipped. -/
def item_project_key (raw : Item) : String :=
  let pid : String :=
    if optTruthy raw.project_id then raw.project_id.getD ""
    else
      match raw.pk with
      | some pkv =>
          if pkv ≠ "" ∧ (strSplitOnChar pkv '#').length > 1 then
            (strSplitOnChar pkv '#').headD ""
          else ""
      | none => ""
  normalize_project_id (some pid)

/-- The item-level building identity of lines 400-411: nested building
payload, else nested unit payload, else the flat item field. -/
def item_building_id (raw : Item) (bp up : Option Payload) : Option String :=
  let v1 : Option String := bp.bind Payload.building_id
  let v2 : Option String := if optTruthy v1 then v1 else up.bind Payload.building_id
  if optTruthy v2 then v2 else raw.building_id

/-- The in-place mutation applied to an existing building entry by the
metadata-refresh block (lines 430-441): overwrite `pre_kickoff`, refresh
identity fields when absent or strictly newer, bump the timestamp when
strictly newer. -/
def refreshed_entry (ex : Entry) (ts : Option Instant)
    (bid norm : Option String) (bpk : Bool) : Entry :=
  let newer := is_newer_ts ex.timestamp ts
  { overrides := ex.overrides,
    timestamp := if newer then ts else ex.timestamp,
    building_id :=
      if optTruthy bid ∧ (¬ optTruthy ex.building_id ∨ newer = true) then bid
      else ex.building_id,
    normalized_building_id :=
      if norm.isSome ∧ (ex.normalized_building_id = none ∨ newer = true) then
        norm
      else ex.normalized_building_id,
    pre_kickoff := bpk }

/-- The metadata-refresh block of lines 430-449 applied to the building
key; when the key is absent, a metadata-only entry is inserted only for a
pre-kickoff building (lines 442-449). -/
def refresh_building_meta (index : Index) (key : String × String)
    (ts : Option Instant) (bid norm : Option String) (bpk : Bool) : Index :=
  match lookupA index key with
  | some ex => upsert index key (refreshed_entry ex ts bid norm bpk)
  | none =>
      if bpk then
        upsert index key
          { overrides := [], timestamp := ts, building_id := bid,
            normalized_building_id := norm, pre_kickoff := true }
      else index

/-- The building-overrides write site (lines 416-429): a non-empty nested
building overrides dict is recorded under the building lookup key when the
slot is empty or strictly stale. -/
def ops_building_write (index : Index) (key : String × String)
    (bo : Option OvDict) (ts : Option Instant) (bid norm : Option String)
    (bpk : Bool) : Index :=
  match bo with
  | some o =>
      if o ≠ [] ∧ should_replace (lookupA index key) ts then
        upsert index key
          { overrides := o, timestamp := ts, building_id := bid,
            normalized_building_id := norm, pre_kickoff := bpk }
      else index
  | none => index

/-- The unit-overrides write site (lines 451-472); the boolean reports
`unit_entry_recorded`. -/
def ops_unit_write (index : Index) (key : String × String) (uo : OvDict)
    (ts : Option Instant) (bid norm : Option String) (upk : Bool) :
    Index × Bool :=
  if should_replace (lookupA index key) ts then
    (upsert index key
      { overrides := uo, timestamp := ts, building_id := bid,
        normalized_building_id := norm, pre_kickoff := upk }, true)
  else (index, false)

/-- The metadata-only unit fallback write site (lines 474-490). -/
def ops_unit_fallback_write (index : Index) (key : String × String)
    (ts : Option Instant) (bid norm : Option String) (upk : Bool) : Index :=
  if should_replace (lookupA index key) ts then
    upsert index key
      { overrides := [], timestamp := ts, building_id := bid,
        normalized_building_id := norm, pre_kickoff := upk }
  else index

/-- The unit-entry write plus the metadata-only fallback (lines 451-490)
for one item. -/
def ops_unit_steps (index : Index) (raw : Item) (d : ItemData)
    (project_key : String) (ts : Option Instant) (bid norm : Option String) :
    Index :=
  let unit_number := pyOrOS raw.unit_number raw.sk
  let unitStep : Index × Bool :=
    match d.unit with
    | some upl =>
        match upl.overrides with
        | some uo =>
            if uo ≠ [] then
              let unit_id :=
                if optTruthy upl.unit_number then upl.unit_number
                else if unit_number.isSome then unit_number
                else raw.sk
              match normalize_unit_number unit_id with
              | some uKey =>
                  ops_unit_write index (project_key, uKey) uo ts bid norm
                    (extract_pre_kickoff_flag [d.unit, d.building])
              | none => (index, false)
            else (index, false)
        | none => (index, false)
    | none => (index, false)
  let idx3 := unitStep.1
  if unitStep.2 = false ∧ optTruthy bid then
    match normalize_unit_number unit_number with
    | some uf =>
        ops_unit_fallback_write idx3 (project_key, uf) ts bid norm
          (extract_pre_kickoff_flag [d.unit, d.building])
    | none => idx3
  else idx3

/-- `_build_ops_override_index` body for one scanned item. -/
def process_ops_item (index : Index) (raw : Item) : Index :=
  let project_key := item_project_key raw
  if project_key = "" then index
  else
    match raw.data with
    | none => index
    | some d =>
        let bid := item_building_id raw d.building d.unit
        let norm := normalize_building_id bid
        let bKey := build_building_lookup_key norm
        let bpk := extract_pre_kickoff_flag [d.building]
        let idx1 := ops_building_write index (project_key, bKey)
          (d.building.bind Payload.overrides) raw.updated_at bid norm bpk
        let idx2 := refresh_building_meta idx1 (project_key, bKey)
          raw.updated_at bid norm bpk
        ops_unit_steps idx2 raw d project_key raw.updated_at bid norm

def build_ops_override_index (items : List Item) : Index :=
  items.foldl process_ops_item []

/-! ## The override application pass (report_pdf.py lines 494-624)

Dataframe cells are modelled as missing (`na`, pandas `NaN`/`None`),
strings, integers, or date values.  The pandas missing marker is treated
with `None` truthiness (falsy); `_normalize_project_id` and
`_normalize_unit_number` both map it to "absent", which is the behaviour
the pass relies on after `build_dataframe`'s fill passes. -/

inductive Cell where
  | na
  | cstr (s : String)
  | cint (n : Int)
  | cdate (i : Instant)
deriving DecidableEq, Repr

/-- `str(value)` for a non-missing cell; rendering of dates matches
`ovStr` so the model is consistent across the boundary. -/
def cellStr : Cell → String
  | .na => ""
  | .cstr s => s
  | .cint n => toString n
  | .cdate i => "@" ++ toString i.day ++ "." ++ toString i.tod

def cellTruthy : Cell → Bool
  | .na => false
  | .cstr s => s ≠ ""
  | .cint n => n ≠ 0
  | .cdate _ => true

/-- `_normalize_project_id` on a cell. -/
def cell_project_key (c : Cell) : String :=
  match c with
  | .na => ""
  | c => strToLower (strTrim (cellStr c))

/-- `_normalize_unit_number` on a cell. -/
def cell_unit_key (c : Cell) : Option String :=
  match c with
  | .na => none
  | .cint n => some (toString n)
  | c => normalize_unit_number_str (cellStr c)

/-- `ALT_PROJECT_TO_OPS` (report_pdf.py lines 196-205). -/
def alt_project_to_ops : String → Option String
  | "aria" => some "Aria"
  | "fusion" => some "Fusion"
  | "somi towns" => some "SoMi Towns"
  | "somi condos" => some "SoMi HayView"
  | "somi hayview" => some "SoMi HayView"
  | "somi haypark" => some "SoMi Haypark"
  | "vida" => some "Vida"
  | "vida 2" => some "Vida 2"
  | _ => none

/-- `_map_alt_to_ops_project`: the first truthy candidate with non-empty
stripped text decides; it is alias-mapped when known, else passed through. -/
def map_alt_to_ops_project (alt project : Cell) : String :=
  (firstSome (fun c =>
    if cellTruthy c then
      let t := strTrim (cellStr c)
      if t = "" then none
      else some ((alt_project_to_ops (strToLower t)).getD t)
    else none) [alt, project]).getD ""

/-- One row of the merged dataframe, restricted to the columns the
application pass reads or writes; every other column of the source frame
lives untouched in `others`. -/
structure Row where
  projectName : Cell
  altProjectName : Cell
  contractUnitNumber : Cell
  status : Cell
  statusNumeric : Cell
  coeDate : Cell
  buyersCombined : Cell
  opsMilestoneCode : Cell
  opsMilestoneDate : Cell
  opsCOE : Cell
  building_id : Cell
  builder : Cell
  others : List (String × Cell)
deriving DecidableEq, Repr

/-- `pd.to_numeric(..., errors="coerce").fillna(99).astype(int)` on one
StatusNumeric cell (the external numeric parser is modelled on integer
strings; anything unparseable coerces to the 99 default). -/
def to_numeric_fill99 : Cell → Int
  | .na => 99
  | .cint n => n
  | .cstr s => (strToIntQ s).getD 99
  | .cdate _ => 99

def fillna_empty (c : Cell) : Cell :=
  match c with
  | .na => .cstr ""
  | c => c

/-- The frame-level preamble of `_apply_ops_overrides` (lines 498-516):
ensure/fill the milestone, ops-COE and building display columns and coerce
`StatusNumeric`. -/
def coerce_ops_columns (r : Row) : Row :=
  { r with
    opsMilestoneCode := fillna_empty r.opsMilestoneCode,
    opsMilestoneDate := fillna_empty r.opsMilestoneDate,
    opsCOE := fillna_empty r.opsCOE,
    building_id := fillna_empty r.building_id,
    builder := fillna_empty r.builder,
    statusNumeric := .cint (to_numeric_fill99 r.statusNumeric) }

/-- Candidate project keys (lines 525-534): alt name, project name, alias
mapping — normalised, deduplicated, empties dropped. -/
def candidate_projects (r : Row) : List String :=
  let mapped := map_alt_to_ops_project r.altProjectName r.projectName
  [cell_project_key r.altProjectName,
   cell_project_key r.projectName,
   strToLower (strTrim mapped)].foldl
    (fun acc k => if k ≠ "" ∧ k ∉ acc then acc ++ [k] else acc) []

/-- Candidate unit keys (lines 538-553): the normalised unit number, the
text after the last hyphen, and the trailing digit run. -/
def candidate_units (unitKey : String) : List String :=
  let base := [unitKey]
  let base :=
    if strContainsChar unitKey '-' then
      let tail := (strSplitOnChar unitKey '-').getLastD ""
      if tail ∉ base then base ++ [tail] else base
    else base
  let digits := String.mk ((unitKey.toList.reverse.takeWhile Char.isDigit).reverse)
  if digits ≠ "" ∧ digits ∉ base then base ++ [digits] else base

/-- First matching `(project, unit)` override entry (lines 554-565). -/
def find_override_entry (ovr : Index) (projects units : List String) :
    Option (String × Entry) :=
  firstSome (fun pj =>
    (firstSome (fun uk => lookupA ovr (pj, uk)) units).map (fun e => (pj, e)))
    projects

/-- Building entry search (lines 566-584): matched project first, then the
remaining candidates; per project, the normalized-building key then the
bare `"#building"` sentinel. -/
def find_building_entry (ovr : Index) (searchProjects : List String)
    (normalizedB : Option String) : Option Entry :=
  firstSome (fun pj =>
    match (if optTruthy normalizedB then
             lookupA ovr (pj, build_building_lookup_key normalizedB)
           else none) with
    | some e => some e
    | none => lookupA ovr (pj, "#building")) searchProjects

def ovToCell : OValue → Cell
  | .blank => .cstr ""
  | .text s => .cstr s
  | .date i => .cdate i

/-- The per-row body of `_apply_ops_overrides` (lines 524-623). -/
def apply_ops_row (ovr : Index) (r : Row) : Row :=
  let candProjects := candidate_projects r
  match cell_unit_key r.contractUnitNumber with
  | none => r
  | some unitKey =>
      if candProjects = [] then r
      else
        let candUnits := candidate_units unitKey
        let found := find_override_entry ovr candProjects candUnits
        let normalizedB := found.bind (fun pe => pe.2.normalized_building_id)
        let searchProjects :=
          match found with
          | some (pj, _) => pj :: candProjects.filter (fun q => q ≠ pj)
          | none => candProjects
        let bEntry := find_building_entry ovr searchProjects normalizedB
        let uo := found.map (fun pe => pe.2.overrides)
        let bo := bEntry.map Entry.overrides
        let upk := (found.map (fun pe => pe.2.pre_kickoff)).getD false
        let bpk := (bEntry.map Entry.pre_kickoff).getD false
        let skip := upk || bpk
        let ms := if skip then none else resolve_milestone uo bo
        let coe := if skip then none else resolve_ops_coe uo bo
        let r1 :=
          match ms with
          | some (c, v) =>
              { r with opsMilestoneCode := .cstr c, opsMilestoneDate := ovToCell v }
          | none => r
        let r2 :=
          { r1 with opsCOE := if skip then .cstr "" else .cstr (coe.getD "") }
        let bid := pyOrOS (found.bind (fun pe => pe.2.building_id))
          (bEntry.bind Entry.building_id)
        if optTruthy bid then
          { r2 with building_id := .cstr (bid.getD ""),
                    builder := .cstr (bid.getD "") }
        else r2

/-- `_apply_ops_overrides`: identity on an empty override map, otherwise
the column coercions followed by the per-row join. -/
def apply_ops_overrides (df : List Row) (ovr : Index) : List Row :=
  if ovr = [] then df
  else (df.map coerce_ops_columns).map (apply_ops_row ovr)

/-! ## The table-building slice of `build_dataframe`
(report_pdf.py lines 1134-1212, restricted to the primary table; chart
aggregation and the summary frame are presentation plumbing outside this
model).  `EXCLUDED_PROJECTS` is an explicit argument because the module
constant is patched in by the callers (report_pdf_hso.py line 362). -/

/-- The external lenient string-to-date parser, fixed to the injective
rendering this model uses for date values. -/
def str_to_instant (s : String) : Option Instant :=
  match s.toList with
  | '@' :: rest =>
      match splitOnCharList '.' rest with
      | [d, t] =>
          match strToNatQ (String.mk d), strToNatQ (String.mk t) with
          | some dn, some tn => some ⟨dn, tn⟩
          | _, _ => none
      | _ => none
  | _ => none

/-- `pd.to_datetime(..., errors="coerce")` on one cell. -/
def to_datetime_cell : Cell → Cell
  | .na => .na
  | .cdate i => .cdate i
  | .cstr s =>
      match str_to_instant s with
      | some i => .cdate i
      | none => .na
  | .cint n => .cdate ⟨n.toNat, 0⟩

/-- Calendar-year projection of a day number (external calendar detail,
needed only so the closed-this-year filter is a total function). -/
def yearOf (i : Instant) : Nat := i.day / 365

def row_status_num (r : Row) : Int :=
  match r.statusNumeric with
  | .cint n => n
  | _ => 99

def row_coe_year (r : Row) : Option Nat :=
  match r.coeDate with
  | .cdate i => some (yearOf i)
  | _ => none

/-- `_filter_excluded_projects` (lines 627-636). -/
def filter_excluded_projects (df : List Row) (excluded : List String) :
    List Row :=
  if excluded = [] then df
  else
    let lowered := excluded.map (fun s => strToLower s)
    df.filter (fun r =>
      ¬(strToLower (strTrim (cellStr r.altProjectName)) ∈ lowered ∨
        strToLower (strTrim (cellStr r.projectName)) ∈ lowered))

/-- `pd.Timestamp("2262-04-11")`, the sentinel COE sort key. -/
def max_instant : Instant := ⟨106751, 0⟩

def cmpInstant (a b : Instant) : Ordering :=
  (compare a.day b.day).then (compare a.tod b.tod)

def cmpOptIntNaLast : Option Int → Option Int → Ordering
  | none, none => .eq
  | none, some _ => .gt
  | some _, none => .lt
  | some a, some b => compare a b

def row_unit_sort_key (r : Row) : Option Int :=
  if row_status_num r = 1 then none
  else
    match r.contractUnitNumber with
    | .cint n => some n
    | .cstr s => strToIntQ s
    | _ => none

def row_coe_sort_key (r : Row) : Instant :=
  if row_status_num r ≠ 1 then max_instant
  else
    match r.coeDate with
    | .cdate i => i
    | _ => max_instant

/-- The five-key sort of lines 1192-1207 (AltProjectName, StatusNumeric,
COESortKey, UnitSortKey with closed rows blanked, textual fallback). -/
def cmpRow (a b : Row) : Ordering :=
  (compare (cellStr a.altProjectName) (cellStr b.altProjectName)).then
    ((compare (row_status_num a) (row_status_num b)).then
      ((cmpInstant (row_coe_sort_key a) (row_coe_sort_key b)).then
        ((cmpOptIntNaLast (row_unit_sort_key a) (row_unit_sort_key b)).then
          (compare (cellStr a.contractUnitNumber)
            (cellStr b.contractUnitNumber)))))

def sort_rows (df : List Row) : List Row :=
  df.mergeSort (fun a b => cmpRow a b ≠ .gt)

/-- `build_dataframe`, primary-table path: type coercions, project
exclusion, the override application (skipped entirely on an empty map),
the closed-before-this-year drop, and the final sort. -/
def build_dataframe (rows : List Row) (overrides : Index)
    (excluded : List String) (currentYear : Nat) : List Row :=
  if rows = [] then []
  else
    let df := rows.map (fun r =>
      { r with
        altProjectName := fillna_empty r.altProjectName,
        statusNumeric := .cint (to_numeric_fill99 r.statusNumeric),
        buyersCombined := fillna_empty r.buyersCombined,
        coeDate := to_datetime_cell r.coeDate })
    let df := filter_excluded_projects df excluded
    let df := if overrides = [] then df else apply_ops_overrides df overrides
    let df := df.filter (fun r =>
      decide (row_status_num r ≠ 1) || decide (row_coe_year r = some currentYear))
    sort_rows df

/-! ## Override-source loading with failure recovery
(report_pdf.py lines 1335-1347, report_pdf_hso.py lines 47-66) -/

/-- The `try/except` around the override-source scan in `main`: on success
the index is built from the scanned items, on any error a warning is
printed (I/O, outside the model) and the index stays empty. -/
def load_ops_overrides_or_empty (r : Except String (List Item)) : Index :=
  match r with
  | .ok items => build_ops_override_index items
  | .error _ => []

/-- `_load_ops_overrides` of the HSO entry point: empty table name means
skip; load failure degrades to the empty index with a warning. -/
def hso_load_ops_overrides (tableName : String)
    (r : Except String (List Item)) : Index :=
  if tableName = "" then []
  else load_ops_overrides_or_empty r

/-- The portion of `main` that turns scanned records and the override-load
outcome into the primary report table. -/
def run_primary_report (records : List Row) (opsLoad : Except String (List Item))
    (excluded : List String) (currentYear : Nat) : List Row :=
  build_dataframe records (load_ops_overrides_or_empty opsLoad) excluded currentYear

/-- The HSO pipeline: reduced as-of-today overrides applied over the
combined dataset. -/
def hso_pipeline (items : List Item) (rows : List Row) (today : Nat) : List Row :=
  apply_ops_overrides rows
    (reduce_overrides_asof_today (build_ops_override_index items) today)

/-! ## The source merger (combined.py lines 231-279)

A merged-frame row is an association list from column name to cell; the
two upstream loaders (spreadsheet normalisation and key-value scan) are
external collaborators, so `combine_sources` is modelled from the point
where both frames are already in canonical shape.  An absent spreadsheet
path means no spreadsheet frame; an empty key-value frame is not appended
(`if not hso_df.empty`). -/

abbrev CRow := List (String × Cell)

def getCol (r : CRow) (c : String) : Cell := (lookupA r c).getD .na

def setCol (r : CRow) (c : String) (v : Cell) : CRow := upsert r c v

/-- `combined[col].fillna("").astype(str).str.strip()` on one cell. -/
def norm_key_cell (c : Cell) : Cell := .cstr (strTrim (cellStr (fillna_empty c)))

def normalize_key_columns (r : CRow) : CRow :=
  setCol (setCol r "Project Name" (norm_key_cell (getCol r "Project Name")))
    "Contract Unit Number" (norm_key_cell (getCol r "Contract Unit Number"))

/-- The dedup identity: the (already normalised) key-column cells. -/
def row_identity (r : CRow) : Cell × Cell :=
  (getCol r "Project Name", getCol r "Contract Unit Number")

/-- `drop_duplicates(subset=[...], keep="last")`: a row survives iff no
later row shares its identity; kept rows stay in order. -/
def dedup_keep_last : List CRow → List CRow
  | [] => []
  | r :: rest =>
      if rest.any (fun r2 => decide (row_identity r2 = row_identity r)) then
        dedup_keep_last rest
      else r :: dedup_keep_last rest

/-- `DATE_COLUMNS` (processing.py lines 74-84). -/
def date_columns : List String :=
  ["Buyer Contract: Appraiser Visit Date",
   "Buyer Contract: COE Date",
   "Buyer Contract: Extended/Adjusted COE",
   "Buyer Contract: Projected Closing Date",
   "Buyer Contract: Week Ratified Date",
   "Buyer Contract: Contract Sent Date",
   "Buyer Contract: Financing Contingency Date",
   "Buyer Contract: Fully Executed Date",
   "Buyer Contract: Initial Deposit Receipt Date"]

/-- `_coerce_dates` on one row. -/
def coerce_dates_row (r : CRow) : CRow :=
  r.map (fun cv =>
    if cv.1 ∈ date_columns then (cv.1, to_datetime_cell cv.2) else cv)

/-- `combined[columns_to_keep]`: restrict and reorder to the requested
column list. -/
def project_columns (cols : List String) (r : CRow) : CRow :=
  cols.map (fun c => (c, getCol r c))

/-- `combine_sources` from the concatenation point on (lines 241-279). -/
def combine_sources (polaris : Option (List CRow)) (hso : List CRow)
    (cols : List String) : List CRow :=
  let frames : List (List CRow) :=
    (match polaris with | some df => [df] | none => []) ++
      (if hso = [] then [] else [hso])
  if frames = [] then []
  else
    let combined := frames.flatten
    let combined := combined.map normalize_key_columns
    let deduped := dedup_keep_last combined
    let projected := deduped.map (project_columns cols)
    projected.map coerce_dates_row

def sampleB : Entry :=
  { overrides := [("construction_release", OValue.date ⟨10, 0⟩),
                  ("install_windows_exterior_doors", OValue.date ⟨12, 0⟩)],
    timestamp := some ⟨1, 0⟩, building_id := some "A1",
    normalized_building_id := some "a1", pre_kickoff := false }

def sampleU : Entry :=
  { overrides := [("buyer_orientation", OValue.date ⟨14, 0⟩)],
    timestamp := some ⟨2, 0⟩, building_id := none,
    normalized_building_id := some "a1", pre_kickoff := false }

def sampleIdx : Index :=
  [(("p", "#building::a1"), sampleB), (("p", "101"), sampleU)]

def sampleReducedB : Entry :=
  { overrides := [("install_windows_exterior_doors", OValue.date ⟨12, 0⟩)],
    timestamp := some ⟨1, 0⟩, building_id := some "A1",
    normalized_building_id := some "a1", pre_kickoff := false }

def sampleReducedU : Entry :=
  { overrides := [("buyer_orientation", OValue.date ⟨14, 0⟩)],
    timestamp := some ⟨2, 0⟩, building_id := some "A1",
    normalized_building_id := some "a1", pre_kickoff := false }

/-- The selected value maximises the timestamp over all qualifying
candidates of a vocabulary (the precise sense of "latest"). -/
def latest_qualifying (m : OvDict) (codes : List String) (today : Nat)
    (v : OValue) : Prop :=
  ∃ i, ovParse v = some i ∧ i.day ≤ today ∧
    ∀ c2 ∈ codes, ∀ k2 ∈ milestone_key_map c2, ∀ i2 : Instant,
      lookupA m k2 = some (OValue.date i2) → i2.day ≤ today →
      instLEb i2 i = true

/-- Invariant threaded through one item's processing: the entry at `k`
keeps its overrides payload and remains non-replaceable by this item. -/
def OvStable (orig : Entry) (ts : Option Instant) (m : Index)
    (k : String × String) : Prop :=
  ∃ e2, lookupA m k = some e2 ∧ e2.overrides = orig.overrides ∧
    should_replace (some e2) ts = false

/-! ## Claim C3: the index builder's overwrite discipline -/

def ovA3 : OvDict := [("construction_release", OValue.date ⟨5, 0⟩)]

def ovB3 : OvDict := [("construction_release", OValue.date ⟨6, 0⟩)]

def itmA3 : Item :=
  { project_id := some "p3", unit_number := some "7", sk := none, pk := none,
    data := some
      { building := none,
        unit := some
          { building_id := none, unit_number := some "7",
            overrides := some ovA3, pre_kickoff := none } },
    updated_at := none, building_id := none }

def itmB3 : Item :=
  { project_id := some "p3", unit_number := some "7", sk := none, pk := none,
    data := some
      { building := none,
        unit := some
          { building_id := none, unit_number := some "7",
            overrides := some ovB3, pre_kickoff := none } },
    updated_at := some ⟨9, 0⟩, building_id := none }

def entA3 : Entry :=
  { overrides := ovA3, timestamp := none, building_id := none,
    normalized_building_id := none, pre_kickoff := false }

def entB3 : Entry :=
  { overrides := ovB3, timestamp := some ⟨9, 0⟩, building_id := none,
    normalized_building_id := none, pre_kickoff := false }

/-! ## Claim C4: the pre-kickoff flag across the reducer -/

def bp4 : Payload :=
  { building_id := some "A1", unit_number := none,
    overrides := some [("construction_release", OValue.date ⟨10, 0⟩)],
    pre_kickoff := some true }

def item4 : Item :=
  { project_id := some "aria", unit_number := some "101",
    sk := none, pk := none, data := some ⟨some bp4, none⟩,
    updated_at := some ⟨1, 0⟩, building_id := none }

def row4 : Row :=
  { projectName := .cstr "Aria", altProjectName := .cstr "Aria",
    contractUnitNumber := .cstr "101", status := .cstr "Available",
    statusNumeric := .cint 4, coeDate := .na, buyersCombined := .na,
    opsMilestoneCode := .na, opsMilestoneDate := .na, opsCOE := .na,
    building_id := .na, builder := .na,
    others := [("Final Price", .cint 5)] }

def ovr7 : Index :=
  [(("zz", "zz"),
    { overrides := [], timestamp := none, building_id := none,
      normalized_building_id := none, pre_kickoff := false })]

def row7 : Row :=
  { projectName := .cstr "Aria", altProjectName := .cstr "Aria",
    contractUnitNumber := .cstr "101", status := .cstr "Available",
    statusNumeric := .na, coeDate := .na, buyersCombined := .na,
    opsMilestoneCode := .na, opsMilestoneDate := .na, opsCOE := .na,
    building_id := .na, builder := .na, others := [] }

def concat_normalized (polaris : Option (List CRow)) (hso : List CRow) :
    List CRow :=
  (((match polaris with | some df => [df] | none => []) ++
      (if hso = [] then [] else [hso])).flatten).map normalize_key_columns

def ssRow5 : CRow :=
  [("Project Name", .cstr "Bay Village"),
   ("Contract Unit Number", .cint 12),
   ("Status", .cstr "Available")]

def kvRow5 : CRow :=
  [("Project Name", .cstr "Bay Village"),
   ("Contract Unit Number", .cstr "12"),
   ("Status", .cstr "Closed")]

def cols5 : List String := ["Project Name", "Contract Unit Number", "Status"]

def rA6 : CRow :=
  [("Project Name", .cstr "P"), ("Contract Unit Number", .cstr "1"),
   ("Status", .cstr "Available")]

def rB6 : CRow :=
  [("Project Name", .cstr "P"), ("Contract Unit Number", .cstr "1"),
   ("Status", .cstr "Closed")]

def rC6 : CRow :=
  [("Project Name", .cstr "P"), ("Contract Unit Number", .cstr "2"),
   ("Status", .cstr "Closed")]

def cols6 : List String := ["Project Name", "Contract Unit Number", "Status"]

/-! ## Theorems -/

theorem instLEb_total (a b : Instant) : instLEb a b = true ∨ instLEb b a = true := by
  simp only [instLEb, Bool.or_eq_true, Bool.and_eq_true, decide_eq_true_eq, beq_iff_eq]
  omega

theorem instLEb_trans {a b c : Instant} (h₁ : instLEb a b = true)
    (h₂ : instLEb b c = true) : instLEb a c = true := by
  simp only [instLEb, Bool.or_eq_true, Bool.and_eq_true, decide_eq_true_eq, beq_iff_eq] at *
  omega

theorem lookupA_upsert_self {κ ν : Type} [DecidableEq κ]
    (m : List (κ × ν)) (k : κ) (v : ν) : lookupA (upsert m k v) k = some v := by
  induction m with
  | nil => simp [upsert, lookupA]
  | cons hd tl ih =>
      obtain ⟨k0, v0⟩ := hd
      by_cases h : k0 = k <;> simp [upsert, lookupA, h, ih]

theorem lookupA_upsert_ne {κ ν : Type} [DecidableEq κ]
    (m : List (κ × ν)) (k q : κ) (v : ν) (hne : k ≠ q) :
    lookupA (upsert m k v) q = lookupA m q := by
  induction m with
  | nil => simp [upsert, lookupA, hne]
  | cons hd tl ih =>
      obtain ⟨k0, v0⟩ := hd
      by_cases h : k0 = k
      · subst h
        simp [upsert, lookupA, hne]
      · by_cases h2 : k0 = q
        · subst h2
          simp [upsert, lookupA, h, Ne.symm hne, ih]
        · simp [upsert, lookupA, h, h2, ih]

theorem lookupA_upsert_cases {κ ν : Type} [DecidableEq κ]
    (m : List (κ × ν)) (k q : κ) (v w : ν)
    (h : lookupA (upsert m k v) q = some w) :
    w = v ∨ lookupA m q = some w := by
  by_cases hkq : k = q
  · subst hkq
    rw [lookupA_upsert_self] at h
    exact Or.inl (Option.some.inj h).symm
  · rw [lookupA_upsert_ne m k q v hkq] at h
    exact Or.inr h

theorem firstSome_mem {α β : Type} (f : α → Option β) (l : List α) (b : β)
    (h : firstSome f l = some b) : ∃ a ∈ l, f a = some b := by
  induction l with
  | nil => simp [firstSome] at h
  | cons a l ih =>
      simp only [firstSome] at h
      cases hfa : f a with
      | some b0 =>
          rw [hfa] at h
          exact ⟨a, List.mem_cons_self a l, hfa.trans (by simpa using h)⟩
      | none =>
          rw [hfa] at h
          obtain ⟨a', ha', hfa'⟩ := ih h
          exact ⟨a', List.mem_cons_of_mem a ha', hfa'⟩

/-! ## Soundness facts about selection and resolution -/

theorem instLEb_refl (a : Instant) : instLEb a a = true := by
  simp [instLEb]

theorem pickLast_mem :
    ∀ (l : List Cand) (acc : Option Cand) (c : Cand),
      pickLast acc l = some c → c ∈ l ∨ acc = some c := by
  intro l
  induction l with
  | nil =>
      intro acc c h
      cases acc with
      | none => simp [pickLast] at h
      | some b => exact Or.inr h
  | cons c0 l ih =>
      intro acc c h
      cases acc with
      | none =>
          rcases ih (some c0) c h with h1 | h1
          · exact Or.inl (List.mem_cons_of_mem _ h1)
          · exact Or.inl (by simp [Option.some.inj h1])
      | some b =>
          rcases ih _ c h with h1 | h1
          · exact Or.inl (List.mem_cons_of_mem _ h1)
          · by_cases hle : instLEb b.1 c0.1 = true
            · simp [hle] at h1
              exact Or.inl (by simp [h1])
            · simp [hle] at h1
              exact Or.inr (by simp [h1])

theorem pickLast_max :
    ∀ (l : List Cand) (acc : Option Cand) (c : Cand),
      pickLast acc l = some c →
      (∀ x ∈ l, instLEb x.1 c.1 = true) ∧
      (∀ b, acc = some b → instLEb b.1 c.1 = true) := by
  intro l
  induction l with
  | nil =>
      intro acc c h
      refine ⟨by simp, ?_⟩
      intro b hb
      subst hb
      cases h
      exact instLEb_refl _
  | cons c0 l ih =>
      intro acc c h
      cases acc with
      | none =>
          obtain ⟨h1, h2⟩ := ih (some c0) c h
          refine ⟨?_, by simp⟩
          intro x hx
          rcases List.mem_cons.mp hx with hx | hx
          · exact hx ▸ h2 c0 rfl
          · exact h1 x hx
      | some b =>
          obtain ⟨h1, h2⟩ := ih _ c h
          have hch : instLEb (if instLEb b.1 c0.1 then c0 else b).1 c.1 = true :=
            h2 _ rfl
          by_cases hle : instLEb b.1 c0.1 = true
          · rw [if_pos hle] at hch
            refine ⟨?_, ?_⟩
            · intro x hx
              rcases List.mem_cons.mp hx with hx | hx
              · exact hx ▸ hch
              · exact h1 x hx
            · intro b0 hb0
              have hbb : b0 = b := (Option.some.inj hb0).symm
              subst hbb
              exact instLEb_trans hle hch
          · rw [if_neg hle] at hch
            have hc0b : instLEb c0.1 b.1 = true := by
              rcases instLEb_total b.1 c0.1 with ht | ht
              · exact absurd ht hle
              · exact ht
            refine ⟨?_, ?_⟩
            · intro x hx
              rcases List.mem_cons.mp hx with hx | hx
              · exact hx ▸ instLEb_trans hc0b hch
              · exact h1 x hx
            · intro b0 hb0
              have hbb : b0 = b := (Option.some.inj hb0).symm
              subst hbb
              exact hch

theorem candOf_eq_some (m : OvDict) (today : Nat) (code key : String) (x : Cand) :
    candOf m today code key = some x ↔
      ∃ i, lookupA m key = some (OValue.date i) ∧ i.day ≤ today ∧
        x = (i, code, key, OValue.date i) := by
  unfold candOf
  cases hlk : lookupA m key with
  | none => simp
  | some v =>
      cases v with
      | blank => simp [isBlank]
      | text s => simp [isBlank, ovParse]
      | date i =>
          by_cases hd : i.day ≤ today
          · simp only [isBlank, ovParse, if_neg Bool.false_ne_true, if_pos hd]
            constructor
            · intro h
              exact ⟨i, rfl, hd, (Option.some.inj h).symm⟩
            · rintro ⟨i2, hi2, -, hx⟩
              obtain rfl : i = i2 := by
                simpa using congrArg (fun o => o) hi2
              simp [hx]
          · simp only [isBlank, ovParse, if_neg Bool.false_ne_true, if_neg hd]
            constructor
            · intro h; cases h
            · rintro ⟨i2, hi2, hd2, -⟩
              obtain rfl : i = i2 := by
                simpa using congrArg (fun o => o) hi2
              exact absurd hd2 hd

theorem select_eq_pick (m : OvDict) (codes : List String) (today : Nat) :
    select_latest_milestone_for_today m codes today =
      if m = [] then none
      else (pickLast none (selectCands m codes today)).map
        (fun c => (c.2.1, c.2.2.1, c.2.2.2)) := rfl

theorem selectCands_mem (m : OvDict) (codes : List String) (today : Nat)
    (x : Cand) (hx : x ∈ selectCands m codes today) :
    x.2.1 ∈ codes ∧ x.2.2.1 ∈ milestone_key_map x.2.1 ∧
    lookupA m x.2.2.1 = some x.2.2.2 ∧ x.2.2.2 = OValue.date x.1 ∧
    x.1.day ≤ today := by
  obtain ⟨code, hcode, hx⟩ := List.mem_flatMap.mp hx
  obtain ⟨key, hkey, hf⟩ := List.mem_filterMap.mp hx
  obtain ⟨i, hlk, hd, hx⟩ := (candOf_eq_some m today code key x).mp hf
  subst hx
  exact ⟨hcode, hkey, hlk, rfl, hd⟩

theorem selectCands_complete (m : OvDict) (codes : List String) (today : Nat)
    (c k : String) (i : Instant) (hc : c ∈ codes) (hk : k ∈ milestone_key_map c)
    (hlk : lookupA m k = some (OValue.date i)) (hd : i.day ≤ today) :
    (i, c, k, OValue.date i) ∈ selectCands m codes today := by
  refine List.mem_flatMap.mpr ⟨c, hc, ?_⟩
  refine List.mem_filterMap.mpr ⟨k, hk, ?_⟩
  exact (candOf_eq_some m today c k _).mpr ⟨i, hlk, hd, rfl⟩

/-- Soundness of the as-of-today selector: whatever it returns was looked up
in the overrides map, belongs to the requested code vocabulary, and is a
date on or before today. -/
theorem select_sound (m : OvDict) (codes : List String) (today : Nat)
    (c k : String) (v : OValue)
    (h : select_latest_milestone_for_today m codes today = some (c, k, v)) :
    ∃ i, v = OValue.date i ∧ i.day ≤ today ∧ lookupA m k = some v ∧
      k ∈ milestone_key_map c ∧ c ∈ codes := by
  rw [select_eq_pick] at h
  by_cases hm : m = []
  · simp [hm] at h
  · rw [if_neg hm] at h
    obtain ⟨cand, hpick, hcand⟩ := Option.map_eq_some'.mp h
    obtain ⟨i0, c0, k0, v0⟩ := cand
    simp only [Prod.mk.injEq] at hcand
    obtain ⟨rfl, rfl, rfl⟩ := hcand
    rcases pickLast_mem _ none _ hpick with hmem | habs
    · obtain ⟨h1, h2, h3, h4, h5⟩ := selectCands_mem m codes today _ hmem
      exact ⟨i0, h4, h5, h3, h2, h1⟩
    · cases habs

/-- Maximality of the as-of-today selector: the returned milestone's
timestamp is at least that of every qualifying candidate. -/
theorem select_latest (m : OvDict) (codes : List String) (today : Nat)
    (c k : String) (v : OValue)
    (h : select_latest_milestone_for_today m codes today = some (c, k, v)) :
    ∀ c2 ∈ codes, ∀ k2 ∈ milestone_key_map c2, ∀ i2 : Instant,
      lookupA m k2 = some (OValue.date i2) → i2.day ≤ today →
      ∃ i, ovParse v = some i ∧ instLEb i2 i = true := by
  intro c2 hc2 k2 hk2 i2 hlk2 hd2
  rw [select_eq_pick] at h
  by_cases hm : m = []
  · simp [hm] at h
  · rw [if_neg hm] at h
    obtain ⟨cand, hpick, hcand⟩ := Option.map_eq_some'.mp h
    obtain ⟨i0, c0, k0, v0⟩ := cand
    simp only [Prod.mk.injEq] at hcand
    obtain ⟨rfl, rfl, rfl⟩ := hcand
    obtain ⟨hmax, -⟩ := pickLast_max _ none _ hpick
    have hin := selectCands_complete m codes today c2 k2 i2 hc2 hk2 hlk2 hd2
    have hle := hmax _ hin
    rcases pickLast_mem _ none _ hpick with hmem | habs
    · obtain ⟨-, -, -, h4, -⟩ := selectCands_mem m codes today _ hmem
      refine ⟨i0, ?_, hle⟩
      simp only at h4
      rw [h4]
      rfl
    · cases habs

theorem building_codes_keys_disjoint :
    codesDisjointB building_milestone_codes = true := by decide

theorem unit_codes_keys_disjoint :
    codesDisjointB unit_milestone_codes = true := by decide

theorem disjointKeysB_spec (a b k : String) (h : disjointKeysB a b = true)
    (hk : k ∈ milestone_key_map a) : k ∉ milestone_key_map b := by
  have hc := (List.all_eq_true.mp h) k hk
  simp only [Bool.not_eq_true', decide_eq_false_iff_not] at hc
  exact hc

theorem firstSome_eq_none_of {α β : Type} (f : α → Option β) (l : List α)
    (h : ∀ a ∈ l, f a = none) : firstSome f l = none := by
  induction l with
  | nil => rfl
  | cons a l ih =>
      simp only [firstSome, h a (List.mem_cons_self a l)]
      exact ih (fun x hx => h x (List.mem_cons_of_mem a hx))

theorem firstSome_cons {α β : Type} (f : α → Option β) (a : α) (l : List α) :
    firstSome f (a :: l) =
      match f a with
      | some b => some b
      | none => firstSome f l := rfl

theorem firstSome_singleton {α β : Type} (f : α → Option β) (a : α) :
    firstSome f [a] = f a := by
  cases h : f a <;> simp [firstSome, h]

theorem firstSome_congr {α β : Type} (f g : α → Option β) (l : List α)
    (h : ∀ a ∈ l, f a = g a) : firstSome f l = firstSome g l := by
  induction l with
  | nil => rfl
  | cons a l ih =>
      simp only [firstSome, h a (List.mem_cons_self a l)]
      cases g a with
      | some b => rfl
      | none => exact ih (fun x hx => h x (List.mem_cons_of_mem a hx))

theorem dict_probe_eq (d : OvDict) (keys : List String) :
    dict_probe d keys = firstSome (probe_key d) keys := rfl

theorem probe_key_eq_some (d : OvDict) (k : String) (v : OValue) :
    probe_key d k = some v ↔ lookupA d k = some v ∧ isBlank v = false := by
  unfold probe_key
  cases hlk : lookupA d k with
  | none => simp
  | some v0 =>
      show (if isBlank v0 = true then none else some v0) = some v ↔
        some v0 = some v ∧ isBlank v = false
      by_cases hbl : isBlank v0 = true
      · rw [if_pos hbl]
        constructor
        · intro h; cases h
        · rintro ⟨hv, hbf⟩
          obtain rfl := Option.some.inj hv
          rw [hbl] at hbf; cases hbf
      · rw [if_neg hbl]
        constructor
        · intro h
          obtain rfl := Option.some.inj h
          exact ⟨rfl, Bool.not_eq_true _ ▸ hbl⟩
        · rintro ⟨hv, -⟩
          exact hv

theorem dict_probe_nil (keys : List String) : dict_probe [] keys = none := by
  rw [dict_probe_eq]
  exact firstSome_eq_none_of _ keys (fun k _ => by simp [probe_key, lookupA])

theorem dict_probe_single (k : String) (v : OValue) (hv : isBlank v = false)
    (keys : List String) :
    dict_probe [(k, v)] keys = if k ∈ keys then some v else none := by
  rw [dict_probe_eq]
  induction keys with
  | nil => simp [firstSome]
  | cons k0 keys ih =>
      rw [firstSome_cons]
      by_cases hk : k = k0
      · subst hk
        have : probe_key [(k, v)] k = some v :=
          (probe_key_eq_some _ _ _).mpr ⟨by simp [lookupA], hv⟩
        rw [this]
        simp
      · have : probe_key [(k, v)] k0 = none := by
          simp [probe_key, lookupA, hk]
        rw [this, ih]
        by_cases hmem : k ∈ keys
        · simp [hmem, hk]
        · simp [hmem, hk]

theorem dict_probe_mem (d : OvDict) (keys : List String) (v : OValue)
    (h : dict_probe d keys = some v) :
    isBlank v = false ∧ ∃ k ∈ keys, lookupA d k = some v := by
  rw [dict_probe_eq] at h
  obtain ⟨k, hk, hf⟩ := firstSome_mem _ _ _ h
  obtain ⟨hlk, hbl⟩ := (probe_key_eq_some _ _ _).mp hf
  exact ⟨hbl, k, hk, hlk⟩

theorem first_match_one (codes : List String) (d : OvDict) :
    first_match codes [d] =
      firstSome (fun code =>
        (dict_probe d (milestone_key_map code)).map (fun v => (code, v))) codes := by
  unfold first_match
  exact firstSome_congr _ _ codes (fun code _ => by rw [firstSome_singleton])

/-- In a single-binding dictionary with disjoint code vocabularies, the
legacy scan finds exactly the code that owns the bound key. -/
theorem first_match_single (codes : List String) (c k : String) (v : OValue)
    (hdisj : codesDisjointB codes = true) (hc : c ∈ codes)
    (hk : k ∈ milestone_key_map c) (hv : isBlank v = false) :
    first_match codes [[(k, v)]] = some (c, v) := by
  rw [first_match_one]
  induction codes with
  | nil => cases hc
  | cons c0 l ih =>
      simp only [codesDisjointB, Bool.and_eq_true] at hdisj
      obtain ⟨hall, hrest⟩ := hdisj
      rw [firstSome_cons]
      by_cases hcc : c = c0
      · subst hcc
        rw [dict_probe_single k v hv, if_pos hk]
        rfl
      · have hcl : c ∈ l := by
          rcases List.mem_cons.mp hc with h | h
          · exact absurd h hcc
          · exact h
        have hknot : k ∉ milestone_key_map c0 := by
          intro hk0
          have hdis := (List.all_eq_true.mp hall) c hcl
          exact disjointKeysB_spec c0 c k hdis hk0 hk
        rw [dict_probe_single k v hv, if_neg hknot]
        exact ih hrest hcl

/-- Appending an empty dictionary to the scan list never changes the
outcome of `first_match`. -/
theorem first_match_append_nil (codes : List String) (d : OvDict) :
    first_match codes [d, []] = first_match codes [d] := by
  unfold first_match
  refine firstSome_congr _ _ codes (fun code _ => ?_)
  have : firstSome (fun d2 => dict_probe d2 (milestone_key_map code)) [d, []] =
      firstSome (fun d2 => dict_probe d2 (milestone_key_map code)) [d] := by
    rw [firstSome_cons, firstSome_singleton, firstSome_singleton]
    cases h : dict_probe d (milestone_key_map code) with
    | some v => rfl
    | none => exact dict_probe_nil _
  rw [this]

theorem first_match_mem (codes : List String) (dicts : List OvDict)
    (c : String) (v : OValue) (h : first_match codes dicts = some (c, v)) :
    isBlank v = false ∧ ∃ d ∈ dicts, ∃ k, lookupA d k = some v := by
  obtain ⟨code, hcode, hf⟩ := firstSome_mem _ _ _ h
  obtain ⟨v0, hprobe, hcv⟩ := Option.map_eq_some'.mp hf
  simp only [Prod.mk.injEq] at hcv
  obtain ⟨rfl, rfl⟩ := hcv
  obtain ⟨d, hd, hpd⟩ := firstSome_mem _ _ _ hprobe
  obtain ⟨hbl, k, hk, hlk⟩ := dict_probe_mem d _ v0 hpd
  exact ⟨hbl, d, hd, k, hlk⟩

/-! ## Shape lemmas for `resolve_milestone` -/

theorem resolve_eq_both (du db : OvDict) :
    resolve_milestone (some du) (some db) =
      match first_match unit_milestone_codes [du] with
      | some r => some r
      | none => first_match building_milestone_codes [db, du] := rfl

theorem resolve_eq_unit_only (du : OvDict) :
    resolve_milestone (some du) none =
      match first_match unit_milestone_codes [du] with
      | some r => some r
      | none => first_match building_milestone_codes [du] := rfl

theorem resolve_eq_building_only (db : OvDict) :
    resolve_milestone none (some db) =
      first_match building_milestone_codes [db] := rfl

theorem resolve_eq_neither : resolve_milestone none none = none := rfl

/-- Any milestone value the legacy resolver emits is literally one of the
values stored in the unit or building dictionary it was given. -/
theorem resolve_milestone_mem (uo bo : Option OvDict) (c : String) (v : OValue)
    (h : resolve_milestone uo bo = some (c, v)) :
    isBlank v = false ∧
      ((∃ d k, uo = some d ∧ lookupA d k = some v) ∨
       (∃ d k, bo = some d ∧ lookupA d k = some v)) := by
  cases uo with
  | some du =>
      cases bo with
      | some db =>
          rw [resolve_eq_both] at h
          cases hu : first_match unit_milestone_codes [du] with
          | some r =>
              rw [hu] at h
              obtain rfl := Option.some.inj h
              obtain ⟨hbl, d, hd, k, hlk⟩ := first_match_mem _ _ _ _ hu
              have hddu : d = du := by simpa using hd
              exact ⟨hbl, Or.inl ⟨du, k, rfl, hddu ▸ hlk⟩⟩
          | none =>
              rw [hu] at h
              obtain ⟨hbl, d, hd, k, hlk⟩ := first_match_mem _ _ _ _ h
              rcases List.mem_cons.mp hd with rfl | hd2
              · exact ⟨hbl, Or.inr ⟨d, k, rfl, hlk⟩⟩
              · have hddu : d = du := by simpa using hd2
                exact ⟨hbl, Or.inl ⟨du, k, rfl, hddu ▸ hlk⟩⟩
      | none =>
          rw [resolve_eq_unit_only] at h
          cases hu : first_match unit_milestone_codes [du] with
          | some r =>
              rw [hu] at h
              obtain rfl := Option.some.inj h
              obtain ⟨hbl, d, hd, k, hlk⟩ := first_match_mem _ _ _ _ hu
              have hddu : d = du := by simpa using hd
              exact ⟨hbl, Or.inl ⟨du, k, rfl, hddu ▸ hlk⟩⟩
          | none =>
              rw [hu] at h
              obtain ⟨hbl, d, hd, k, hlk⟩ := first_match_mem _ _ _ _ h
              have hddu : d = du := by simpa using hd
              exact ⟨hbl, Or.inl ⟨du, k, rfl, hddu ▸ hlk⟩⟩
  | none =>
      cases bo with
      | some db =>
          rw [resolve_eq_building_only] at h
          obtain ⟨hbl, d, hd, k, hlk⟩ := first_match_mem _ _ _ _ h
          have hddb : d = db := by simpa using hd
          exact ⟨hbl, Or.inr ⟨db, k, rfl, hddb ▸ hlk⟩⟩
      | none =>
          rw [resolve_eq_neither] at h
          cases h

theorem IndexShaped_nil (today : Nat) : IndexShaped today [] := by
  intro k e h
  cases h

theorem IndexShaped_upsert (today : Nat) (res : Index) (k : String × String)
    (e : Entry) (hres : IndexShaped today res) (he : ReducedShape today e) :
    IndexShaped today (upsert res k e) := by
  intro q w hq
  rcases lookupA_upsert_cases res k q e w hq with rfl | hq2
  · exact he
  · exact hres q w hq2

theorem foldl_preserve {σ α : Type} (P : σ → Prop) (f : σ → α → σ) :
    ∀ (l : List α) (acc : σ), P acc → (∀ s a, P s → P (f s a)) →
      P (List.foldl f acc l) := by
  intro l
  induction l with
  | nil => intro acc h _; exact h
  | cons a l ih => intro acc h hf; exact ih (f acc a) (hf acc a h) hf

theorem reduced_building_entry_shape (today : Nat) (be : Entry) :
    ReducedShape today (reduced_building_entry today be).1 := by
  unfold reduced_building_entry
  cases hsel : select_latest_milestone_for_today be.overrides
      building_milestone_codes today with
  | none => exact Or.inl rfl
  | some r =>
      obtain ⟨c, k, v⟩ := r
      exact Or.inr ⟨be.overrides, building_milestone_codes, c, k, v,
        Or.inl rfl, hsel, rfl⟩

theorem process_building_shaped (today : Nat) (p : String)
    (acc : Index × List (String × BSel)) (kv : String × Entry)
    (h : IndexShaped today acc.1) :
    IndexShaped today (process_building today p acc kv).1 := by
  unfold process_building
  exact IndexShaped_upsert today acc.1 (p, kv.1) _ h
    (reduced_building_entry_shape today kv.2)

theorem fallback_building_entry_shape (today : Nat) :
    ReducedShape today fallback_building_entry := Or.inl rfl

theorem process_unit_shaped (today : Nat) (p : String)
    (bsel : List (String × BSel)) (res : Index) (kv : String × Entry)
    (h : IndexShaped today res) :
    IndexShaped today (process_unit today p bsel res kv) := by
  unfold process_unit
  by_cases hb : strStartsWith kv.1 "#building" = true
  · rw [if_pos hb]; exact h
  · rw [if_neg hb]
    set chosen := unit_chosen bsel kv.2.normalized_building_id with hchosen
    set base := unit_base_entry kv.2 (lookupA res (p, chosen.1)) with hbase
    have hbase_shape : ReducedShape today base := Or.inl rfl
    have h2 : IndexShaped today (upsert res (p, kv.1) base) :=
      IndexShaped_upsert today res _ _ h hbase_shape
    by_cases hcode : chosen.2.code ≠ some "B11"
    · rw [if_pos hcode]; exact h2
    · rw [if_neg hcode]
      cases hsel : select_latest_milestone_for_today kv.2.overrides
          unit_milestone_codes today with
      | none => exact h2
      | some r =>
          obtain ⟨c, uk, uv⟩ := r
          exact IndexShaped_upsert today _ _ _ h2
            (Or.inr ⟨kv.2.overrides, unit_milestone_codes, c, uk, uv,
              Or.inr rfl, hsel, rfl⟩)

theorem building_phase_shaped (today : Nat) (p : String) (res : Index)
    (es : List (String × Entry)) (h : IndexShaped today res) :
    IndexShaped today (building_phase today p res es).1 := by
  unfold building_phase
  have h1 : IndexShaped today
      ((es.filter (fun kv => strStartsWith kv.1 "#building")).foldl
        (process_building today p) (res, [])).1 := by
    refine foldl_preserve (fun s => IndexShaped today s.1)
      (process_building today p) _ (res, []) h ?_
    intro s a hs
    exact process_building_shaped today p s a hs
  set step1 := (es.filter (fun kv => strStartsWith kv.1 "#building")).foldl
    (process_building today p) (res, []) with hstep1
  by_cases hempty : step1.2 = []
  · rw [if_pos hempty]
    exact IndexShaped_upsert today step1.1 _ _ h1
      (fallback_building_entry_shape today)
  · rw [if_neg hempty]
    exact h1

theorem process_project_shaped (today : Nat) (res : Index)
    (pg : String × List (String × Entry)) (h : IndexShaped today res) :
    IndexShaped today (process_project today res pg) := by
  unfold process_project
  refine foldl_preserve (IndexShaped today)
    (process_unit today pg.1 (building_phase today pg.1 res pg.2).2) _ _
    (building_phase_shaped today pg.1 res pg.2 h) ?_
  intro s a hs
  exact process_unit_shaped today pg.1 _ s a hs

/-- Every entry of the reduced override map is shape-constrained: an empty
overrides dict, or the single as-of-today milestone binding. -/
theorem reduce_shape (idx : Index) (today : Nat) :
    IndexShaped today (reduce_overrides_asof_today idx today) := by
  unfold reduce_overrides_asof_today
  by_cases hidx : idx = []
  · rw [if_pos hidx]; exact IndexShaped_nil today
  · rw [if_neg hidx]
    refine foldl_preserve (IndexShaped today) _ _ _ (IndexShaped_nil today) ?_
    intro s a hs
    exact process_project_shaped today s a hs

theorem lookupA_none_forall {κ ν : Type} [DecidableEq κ]
    (l : List (κ × ν)) (k : κ) (h : lookupA l k = none) :
    ∀ p ∈ l, p.1 ≠ k := by
  induction l with
  | nil => intro p hp; cases hp
  | cons hd tl ih =>
      obtain ⟨k0, v0⟩ := hd
      intro p hp
      by_cases hk : k0 = k
      · simp [lookupA, hk] at h
      · simp only [lookupA, if_neg hk] at h
        rcases List.mem_cons.mp hp with rfl | hp2
        · exact hk
        · exact ih h p hp2

theorem lookupA_eq_none_of {κ ν : Type} [DecidableEq κ]
    (l : List (κ × ν)) (k : κ) (h : ∀ p ∈ l, p.1 ≠ k) :
    lookupA l k = none := by
  induction l with
  | nil => rfl
  | cons hd tl ih =>
      obtain ⟨k0, v0⟩ := hd
      have hk0 : k0 ≠ k := h (k0, v0) (List.mem_cons_self _ _)
      simp only [lookupA, if_neg hk0]
      exact ih (fun p hp => h p (List.mem_cons_of_mem _ hp))

theorem mem_of_lookupA {κ ν : Type} [DecidableEq κ]
    (l : List (κ × ν)) (k : κ) (v : ν) (h : lookupA l k = some v) :
    (k, v) ∈ l := by
  induction l with
  | nil => cases h
  | cons hd tl ih =>
      obtain ⟨k0, v0⟩ := hd
      by_cases hk : k0 = k
      · subst hk
        simp only [lookupA, if_pos rfl] at h
        obtain rfl := Option.some.inj h
        exact List.mem_cons_self _ _
      · simp only [lookupA, if_neg hk] at h
        exact List.mem_cons_of_mem _ (ih h)

theorem lookupA_of_mem_nodup {κ ν : Type} [DecidableEq κ]
    (l : List (κ × ν)) (k : κ) (v : ν) (hnd : keysNodup l)
    (h : (k, v) ∈ l) : lookupA l k = some v := by
  induction l with
  | nil => cases h
  | cons hd tl ih =>
      obtain ⟨k0, v0⟩ := hd
      obtain ⟨hhd, htl⟩ := List.pairwise_cons.mp hnd
      rcases List.mem_cons.mp h with heq | hmem
      · injection heq with h1 h2
        subst h1; subst h2
        simp [lookupA]
      · have hk0 : k0 ≠ k := by
          have := hhd (k, v) hmem
          simpa using this
        simp only [lookupA, if_neg hk0]
        exact ih htl hmem

theorem mem_upsert_cases {κ ν : Type} [DecidableEq κ]
    (l : List (κ × ν)) (k : κ) (v : ν) (q : κ × ν)
    (h : q ∈ upsert l k v) : q.1 = k ∨ q ∈ l := by
  induction l with
  | nil =>
      simp only [upsert] at h
      rcases List.mem_singleton.mp h with rfl
      exact Or.inl rfl
  | cons hd tl ih =>
      obtain ⟨k0, v0⟩ := hd
      by_cases hk : k0 = k
      · subst hk
        simp only [upsert, if_pos rfl] at h
        rcases List.mem_cons.mp h with rfl | hmem
        · exact Or.inl rfl
        · exact Or.inr (List.mem_cons_of_mem _ hmem)
      · simp only [upsert, if_neg hk] at h
        rcases List.mem_cons.mp h with rfl | hmem
        · exact Or.inr (List.mem_cons_self _ _)
        · rcases ih hmem with h2 | h2
          · exact Or.inl h2
          · exact Or.inr (List.mem_cons_of_mem _ h2)

theorem keysNodup_upsert {κ ν : Type} [DecidableEq κ]
    (l : List (κ × ν)) (k : κ) (v : ν) (h : keysNodup l) :
    keysNodup (upsert l k v) := by
  induction l with
  | nil => simp [upsert, keysNodup]
  | cons hd tl ih =>
      obtain ⟨k0, v0⟩ := hd
      obtain ⟨hhd, htl⟩ := List.pairwise_cons.mp h
      by_cases hk : k0 = k
      · subst hk
        simp only [upsert, if_pos rfl]
        exact List.pairwise_cons.mpr ⟨fun b hb => hhd b hb, htl⟩
      · simp only [upsert, if_neg hk]
        refine List.pairwise_cons.mpr ⟨?_, ih htl⟩
        intro b hb
        rcases mem_upsert_cases tl k v b hb with h2 | h2
        · rw [h2]; exact hk
        · exact hhd b h2

theorem keysNodup_nil {κ ν : Type} : keysNodup ([] : List (κ × ν)) :=
  List.Pairwise.nil

theorem lookupA_append {κ ν : Type} [DecidableEq κ]
    (l1 l2 : List (κ × ν)) (k : κ) :
    lookupA (l1 ++ l2) k =
      match lookupA l1 k with
      | some v => some v
      | none => lookupA l2 k := by
  induction l1 with
  | nil => rfl
  | cons hd tl ih =>
      obtain ⟨k0, v0⟩ := hd
      by_cases hk : k0 = k
      · simp [lookupA, hk]
      · simp only [List.cons_append, lookupA, if_neg hk]
        exact ih

theorem lookupPU_upsert_group
    (gs : List (String × List (String × Entry))) (p0 u0 : String) (e0 : Entry)
    (p u : String) :
    lookupPU (upsert_group gs p0 u0 e0) p u =
      if p = p0 ∧ u = u0 then some e0 else lookupPU gs p u := by
  unfold upsert_group
  cases hg : lookupA gs p0 with
  | some es0 =>
      by_cases hp : p = p0
      · subst hp
        unfold lookupPU
        rw [lookupA_upsert_self, hg]
        show lookupA (upsert es0 u0 e0) u =
          if p = p ∧ u = u0 then some e0 else lookupA es0 u
        by_cases hu : u = u0
        · subst hu
          rw [lookupA_upsert_self, if_pos ⟨rfl, rfl⟩]
        · rw [lookupA_upsert_ne es0 u0 u e0 (Ne.symm hu)]
          rw [if_neg (fun hand => hu hand.2)]
      · unfold lookupPU
        rw [lookupA_upsert_ne gs p0 p _ (Ne.symm hp)]
        rw [if_neg (fun hand => hp hand.1)]
  | none =>
      unfold lookupPU
      rw [lookupA_append]
      by_cases hp : p = p0
      · subst hp
        rw [hg]
        show (lookupA [(p, [(u0, e0)])] p).bind (fun es => lookupA es u) =
          if p = p ∧ u = u0 then some e0
          else Option.bind none fun es => lookupA es u
        by_cases hu : u = u0
        · subst hu
          simp [lookupA]
        · simp [lookupA, Ne.symm hu, hu]
      · cases hgp : lookupA gs p with
        | some es =>
            simp only [hgp]
            rw [if_neg (fun hand => hp hand.1)]
        | none =>
            simp only [hgp]
            have hsingle : lookupA [(p0, [(u0, e0)])] p = none := by
              simp [lookupA, Ne.symm hp]
            rw [hsingle, if_neg (fun hand => hp hand.1)]

theorem group_fold_lookup :
    ∀ (idx : Index) (gs : List (String × List (String × Entry))) (p u : String),
      keysNodup idx →
      lookupPU (idx.foldl (fun gs kv => upsert_group gs kv.1.1 kv.1.2 kv.2) gs) p u =
        match lookupA idx (p, u) with
        | some e => some e
        | none => lookupPU gs p u := by
  intro idx
  induction idx with
  | nil => intro gs p u _; rfl
  | cons hd tl ih =>
      obtain ⟨⟨p0, u0⟩, e0⟩ := hd
      intro gs p u hnd
      obtain ⟨hhd, htl⟩ := List.pairwise_cons.mp hnd
      simp only [List.foldl_cons]
      rw [ih _ p u htl]
      by_cases hkey : (p0, u0) = (p, u)
      · injection hkey with h1 h2
        subst h1; subst h2
        have htlnone : lookupA tl (p0, u0) = none := by
          refine lookupA_eq_none_of tl (p0, u0) ?_
          intro q hq
          exact Ne.symm (hhd q hq)
        rw [htlnone]
        have hcons : lookupA (((p0, u0), e0) :: tl) (p0, u0) = some e0 := by
          simp [lookupA]
        rw [hcons]
        rw [lookupPU_upsert_group]
        simp
      · have hcons : lookupA (((p0, u0), e0) :: tl) (p, u) = lookupA tl (p, u) := by
          simp [lookupA, hkey]
        rw [hcons]
        cases htlv : lookupA tl (p, u) with
        | some e => rfl
        | none =>
            rw [lookupPU_upsert_group]
            have : ¬(p = p0 ∧ u = u0) := by
              rintro ⟨rfl, rfl⟩
              exact hkey rfl
            rw [if_neg this]

theorem group_by_project_lookup (idx : Index) (p u : String)
    (hnd : keysNodup idx) :
    lookupPU (group_by_project idx) p u = lookupA idx (p, u) := by
  unfold group_by_project
  rw [group_fold_lookup idx [] p u hnd]
  cases h : lookupA idx (p, u) with
  | some e => rfl
  | none => rfl

theorem GroupsInnerNodup_upsert_group
    (gs : List (String × List (String × Entry))) (p0 u0 : String) (e0 : Entry)
    (h : GroupsInnerNodup gs) :
    GroupsInnerNodup (upsert_group gs p0 u0 e0) := by
  unfold upsert_group
  cases hg : lookupA gs p0 with
  | some es0 =>
      intro p es hes
      rcases lookupA_upsert_cases gs p0 p _ es hes with rfl | h2
      · exact keysNodup_upsert es0 u0 e0 (h p0 es0 hg)
      · exact h p es h2
  | none =>
      intro p es hes
      rw [lookupA_append] at hes
      cases hgp : lookupA gs p with
      | some es1 =>
          rw [hgp] at hes
          obtain rfl := Option.some.inj hes
          exact h p es1 hgp
      | none =>
          rw [hgp] at hes
          by_cases hp : p0 = p
          · subst hp
            simp only [lookupA, if_pos rfl] at hes
            obtain rfl := Option.some.inj hes
            exact List.pairwise_singleton _ _
          · simp [lookupA, hp] at hes

theorem group_by_project_inner_nodup (idx : Index) :
    GroupsInnerNodup (group_by_project idx) := by
  unfold group_by_project
  refine foldl_preserve GroupsInnerNodup _ idx [] ?_ ?_
  · intro p es h; cases h
  · intro s a hs
    exact GroupsInnerNodup_upsert_group s a.1.1 a.1.2 a.2 hs

theorem keysNodup_upsert_group
    (gs : List (String × List (String × Entry))) (p0 u0 : String) (e0 : Entry)
    (h : keysNodup gs) : keysNodup (upsert_group gs p0 u0 e0) := by
  unfold upsert_group
  cases hg : lookupA gs p0 with
  | some es0 => exact keysNodup_upsert gs p0 _ h
  | none =>
      refine List.pairwise_append.mpr ⟨h, List.pairwise_singleton _ _, ?_⟩
      intro a ha b hb
      rcases List.mem_singleton.mp hb with rfl
      exact lookupA_none_forall gs p0 hg a ha

theorem group_by_project_outer_nodup (idx : Index) :
    keysNodup (group_by_project idx) := by
  unfold group_by_project
  refine foldl_preserve keysNodup _ idx [] keysNodup_nil ?_
  intro s a hs
  exact keysNodup_upsert_group s a.1.1 a.1.2 a.2 hs

/-! ## Tracing individual keys through the reducer -/

theorem process_building_other (today : Nat) (p : String)
    (acc : Index × List (String × BSel)) (kv : String × Entry)
    (q : String × String) (hq : q ≠ (p, kv.1)) :
    lookupA (process_building today p acc kv).1 q = lookupA acc.1 q := by
  unfold process_building
  exact lookupA_upsert_ne acc.1 (p, kv.1) q _ (fun h => hq h.symm)

theorem process_building_bsel_other (today : Nat) (p : String)
    (acc : Index × List (String × BSel)) (kv : String × Entry)
    (b : String) (hb : b ≠ kv.1) :
    lookupA (process_building today p acc kv).2 b = lookupA acc.2 b := by
  unfold process_building
  exact lookupA_upsert_ne acc.2 kv.1 b _ (fun h => hb h.symm)

theorem building_fold_frozen (today : Nat) (p bKey : String) :
    ∀ (t : List (String × Entry)) (acc : Index × List (String × BSel)),
      (∀ x ∈ t, x.1 ≠ bKey) →
      lookupA (t.foldl (process_building today p) acc).1 (p, bKey) =
        lookupA acc.1 (p, bKey) ∧
      lookupA (t.foldl (process_building today p) acc).2 bKey =
        lookupA acc.2 bKey := by
  intro t
  induction t with
  | nil => intro acc _; exact ⟨rfl, rfl⟩
  | cons x t ih =>
      intro acc h
      have hx : x.1 ≠ bKey := h x (List.mem_cons_self _ _)
      have hrest := ih (process_building today p acc x)
        (fun y hy => h y (List.mem_cons_of_mem _ hy))
      simp only [List.foldl_cons]
      refine ⟨?_, ?_⟩
      · rw [hrest.1]
        exact process_building_other today p acc x (p, bKey)
          (fun heq => hx (congrArg Prod.snd heq).symm)
      · rw [hrest.2]
        exact process_building_bsel_other today p acc x bKey (Ne.symm hx)

theorem building_fold_at (today : Nat) (p : String) :
    ∀ (l : List (String × Entry)) (acc : Index × List (String × BSel))
      (bKey : String) (be : Entry), keysNodup l → (bKey, be) ∈ l →
      lookupA (l.foldl (process_building today p) acc).1 (p, bKey) =
        some (reduced_building_entry today be).1 ∧
      lookupA (l.foldl (process_building today p) acc).2 bKey =
        some (reduced_building_entry today be).2 := by
  intro l
  induction l with
  | nil => intro acc bKey be _ hmem; cases hmem
  | cons x t ih =>
      intro acc bKey be hnd hmem
      obtain ⟨hhd, htl⟩ := List.pairwise_cons.mp hnd
      rcases List.mem_cons.mp hmem with heq | hmem2
      · subst heq
        simp only [List.foldl_cons]
        have hfrozen := building_fold_frozen today p bKey t
          (process_building today p acc (bKey, be))
          (fun y hy => Ne.symm (hhd y hy))
        refine ⟨?_, ?_⟩
        · rw [hfrozen.1]
          unfold process_building
          exact lookupA_upsert_self _ _ _
        · rw [hfrozen.2]
          unfold process_building
          exact lookupA_upsert_self _ _ _
      · simp only [List.foldl_cons]
        exact ih (process_building today p acc x) bKey be htl hmem2

theorem building_phase_at (today : Nat) (p : String) (res : Index)
    (es : List (String × Entry)) (bKey : String) (be : Entry)
    (hnd : keysNodup es) (hmem : (bKey, be) ∈ es)
    (hpre : strStartsWith bKey "#building" = true) :
    lookupA (building_phase today p res es).1 (p, bKey) =
      some (reduced_building_entry today be).1 ∧
    lookupA (building_phase today p res es).2 bKey =
      some (reduced_building_entry today be).2 := by
  have hmemf : (bKey, be) ∈ es.filter (fun kv => strStartsWith kv.1 "#building") :=
    List.mem_filter.mpr ⟨hmem, hpre⟩
  have hndf : keysNodup (es.filter (fun kv => strStartsWith kv.1 "#building")) :=
    List.Pairwise.sublist (List.filter_sublist es) hnd
  have hat := building_fold_at today p
    (es.filter (fun kv => strStartsWith kv.1 "#building")) (res, []) bKey be hndf hmemf
  unfold building_phase
  have hne : ((es.filter (fun kv => strStartsWith kv.1 "#building")).foldl
      (process_building today p) (res, [])).2 ≠ [] := by
    intro hnil
    rw [hnil] at hat
    cases hat.2
  rw [if_neg hne]
  exact hat

theorem process_unit_other (today : Nat) (p : String)
    (bsel : List (String × BSel)) (res : Index) (kv : String × Entry)
    (q : String × String) (hq : q ≠ (p, kv.1)) :
    lookupA (process_unit today p bsel res kv) q = lookupA res q := by
  unfold process_unit
  by_cases hb : strStartsWith kv.1 "#building" = true
  · rw [if_pos hb]
  · rw [if_neg hb]
    set chosen := unit_chosen bsel kv.2.normalized_building_id with hchosen
    set base := unit_base_entry kv.2 (lookupA res (p, chosen.1)) with hbase
    have hres2 : lookupA (upsert res (p, kv.1) base) q = lookupA res q :=
      lookupA_upsert_ne res (p, kv.1) q base (fun h => hq h.symm)
    by_cases hcode : chosen.2.code ≠ some "B11"
    · rw [if_pos hcode]; exact hres2
    · rw [if_neg hcode]
      cases hsel : select_latest_milestone_for_today kv.2.overrides
          unit_milestone_codes today with
      | none => exact hres2
      | some r =>
          obtain ⟨c, uk, uv⟩ := r
          rw [lookupA_upsert_ne _ (p, kv.1) q _ (fun h => hq h.symm)]
          exact hres2

/-- The final reduced entry of a unit key, as written by one `process_unit`
step: its overrides are `unit_reduced_overrides`. -/
theorem process_unit_self (today : Nat) (p : String)
    (bsel : List (String × BSel)) (res : Index) (uKey : String) (ue : Entry)
    (hpre : strStartsWith uKey "#building" = false) :
    ∃ e, lookupA (process_unit today p bsel res (uKey, ue)) (p, uKey) = some e ∧
      e.overrides = unit_reduced_overrides today bsel ue := by
  unfold process_unit
  rw [if_neg (by simp [hpre])]
  set chosen := unit_chosen bsel ue.normalized_building_id with hchosen
  set base := unit_base_entry ue (lookupA res (p, chosen.1)) with hbase
  unfold unit_reduced_overrides
  rw [← hchosen]
  by_cases hcode : chosen.2.code ≠ some "B11"
  · rw [if_pos hcode, if_pos hcode]
    exact ⟨base, lookupA_upsert_self _ _ _, rfl⟩
  · rw [if_neg hcode, if_neg hcode]
    cases hsel : select_latest_milestone_for_today ue.overrides
        unit_milestone_codes today with
    | none => exact ⟨base, lookupA_upsert_self _ _ _, rfl⟩
    | some r =>
        obtain ⟨c, uk, uv⟩ := r
        exact ⟨{ base with overrides := [(uk, uv)] },
          lookupA_upsert_self _ _ _, rfl⟩

theorem units_fold_frozen (today : Nat) (p : String)
    (bsel : List (String × BSel)) (uKey : String) :
    ∀ (t : List (String × Entry)) (acc : Index),
      (∀ x ∈ t, x.1 ≠ uKey) →
      lookupA (t.foldl (process_unit today p bsel) acc) (p, uKey) =
        lookupA acc (p, uKey) := by
  intro t
  induction t with
  | nil => intro acc _; rfl
  | cons x t ih =>
      intro acc h
      simp only [List.foldl_cons]
      rw [ih (process_unit today p bsel acc x)
        (fun y hy => h y (List.mem_cons_of_mem _ hy))]
      exact process_unit_other today p bsel acc x (p, uKey)
        (fun heq => (h x (List.mem_cons_self _ _)) (congrArg Prod.snd heq).symm)

theorem units_fold_at (today : Nat) (p : String)
    (bsel : List (String × BSel)) :
    ∀ (l : List (String × Entry)) (acc : Index) (uKey : String) (ue : Entry),
      keysNodup l → (uKey, ue) ∈ l → strStartsWith uKey "#building" = false →
      ∃ e, lookupA (l.foldl (process_unit today p bsel) acc) (p, uKey) = some e ∧
        e.overrides = unit_reduced_overrides today bsel ue := by
  intro l
  induction l with
  | nil => intro acc uKey ue _ hmem; cases hmem
  | cons x t ih =>
      intro acc uKey ue hnd hmem hpre
      obtain ⟨hhd, htl⟩ := List.pairwise_cons.mp hnd
      rcases List.mem_cons.mp hmem with heq | hmem2
      · subst heq
        simp only [List.foldl_cons]
        obtain ⟨e, he, hov⟩ := process_unit_self today p bsel acc uKey ue hpre
        refine ⟨e, ?_, hov⟩
        rw [units_fold_frozen today p bsel uKey t _
          (fun y hy => Ne.symm (hhd y hy))]
        exact he
      · simp only [List.foldl_cons]
        exact ih (process_unit today p bsel acc x) uKey ue htl hmem2 hpre

theorem building_fold_other_project (today : Nat) (p : String)
    (q : String × String) (hq : q.1 ≠ p) :
    ∀ (t : List (String × Entry)) (acc : Index × List (String × BSel)),
      lookupA (t.foldl (process_building today p) acc).1 q = lookupA acc.1 q := by
  intro t
  induction t with
  | nil => intro acc; rfl
  | cons x t ih =>
      intro acc
      simp only [List.foldl_cons]
      rw [ih (process_building today p acc x)]
      exact process_building_other today p acc x q
        (fun heq => hq (congrArg Prod.fst heq))

theorem units_fold_other_project (today : Nat) (p : String)
    (bsel : List (String × BSel)) (q : String × String) (hq : q.1 ≠ p) :
    ∀ (t : List (String × Entry)) (acc : Index),
      lookupA (t.foldl (process_unit today p bsel) acc) q = lookupA acc q := by
  intro t
  induction t with
  | nil => intro acc; rfl
  | cons x t ih =>
      intro acc
      simp only [List.foldl_cons]
      rw [ih (process_unit today p bsel acc x)]
      exact process_unit_other today p bsel acc x q
        (fun heq => hq (congrArg Prod.fst heq))

theorem building_phase_other_project (today : Nat) (p : String) (res : Index)
    (es : List (String × Entry)) (q : String × String) (hq : q.1 ≠ p) :
    lookupA (building_phase today p res es).1 q = lookupA res q := by
  unfold building_phase
  set step1 := (es.filter (fun kv => strStartsWith kv.1 "#building")).foldl
    (process_building today p) (res, []) with hstep1
  have hfold : lookupA step1.1 q = lookupA res q := by
    rw [hstep1]
    exact building_fold_other_project today p q hq _ (res, [])
  by_cases hempty : step1.2 = []
  · rw [if_pos hempty]
    rw [lookupA_upsert_ne step1.1 _ q _
      (fun heq => hq (congrArg Prod.fst heq).symm)]
    exact hfold
  · rw [if_neg hempty]
    exact hfold

theorem process_project_other (today : Nat) (res : Index)
    (pg : String × List (String × Entry)) (q : String × String)
    (hq : q.1 ≠ pg.1) :
    lookupA (process_project today res pg) q = lookupA res q := by
  unfold process_project
  rw [units_fold_other_project today pg.1 _ q hq]
  exact building_phase_other_project today pg.1 res pg.2 q hq

theorem groups_fold_other (today : Nat) (p : String) :
    ∀ (g2 : List (String × List (String × Entry))) (acc : Index) (u : String),
      (∀ g ∈ g2, g.1 ≠ p) →
      lookupA (g2.foldl (process_project today) acc) (p, u) =
        lookupA acc (p, u) := by
  intro g2
  induction g2 with
  | nil => intro acc u _; rfl
  | cons g t ih =>
      intro acc u h
      simp only [List.foldl_cons]
      rw [ih (process_project today acc g) u
        (fun y hy => h y (List.mem_cons_of_mem _ hy))]
      exact process_project_other today acc g (p, u)
        (Ne.symm (h g (List.mem_cons_self _ _)))

/-- The units fold preserves reduced building entries (building-keyed
iterations are skipped; unit-keyed ones write different keys). -/
theorem units_fold_building_key (today : Nat) (p : String)
    (bsel : List (String × BSel)) (bKey : String)
    (hpre : strStartsWith bKey "#building" = true) :
    ∀ (t : List (String × Entry)) (acc : Index),
      lookupA (t.foldl (process_unit today p bsel) acc) (p, bKey) =
        lookupA acc (p, bKey) := by
  intro t
  induction t with
  | nil => intro acc; rfl
  | cons x t ih =>
      intro acc
      simp only [List.foldl_cons]
      rw [ih (process_unit today p bsel acc x)]
      by_cases hx : strStartsWith x.1 "#building" = true
      · unfold process_unit
        rw [if_pos hx]
      · refine process_unit_other today p bsel acc x (p, bKey) ?_
        intro heq
        have : bKey = x.1 := congrArg Prod.snd heq
        rw [← this] at hx
        exact hx hpre

/-- Final reduced entry of a building inside its project's pass: the
reduced building entry survives the unit loop untouched. -/
theorem process_project_at_building (today : Nat) (res : Index) (p : String)
    (es : List (String × Entry)) (bKey : String) (be : Entry)
    (hnd : keysNodup es) (hmem : (bKey, be) ∈ es)
    (hpre : strStartsWith bKey "#building" = true) :
    lookupA (process_project today res (p, es)) (p, bKey) =
      some (reduced_building_entry today be).1 := by
  unfold process_project
  rw [units_fold_building_key today p _ bKey hpre es _]
  exact (building_phase_at today p res es bKey be hnd hmem hpre).1

/-- Final reduced entry of a unit inside its project's pass. -/
theorem process_project_at_unit (today : Nat) (res : Index) (p : String)
    (es : List (String × Entry)) (uKey : String) (ue : Entry)
    (hnd : keysNodup es) (hmem : (uKey, ue) ∈ es)
    (hpre : strStartsWith uKey "#building" = false) :
    ∃ e, lookupA (process_project today res (p, es)) (p, uKey) = some e ∧
      e.overrides =
        unit_reduced_overrides today (building_phase today p res es).2 ue := by
  unfold process_project
  exact units_fold_at today p _ es _ uKey ue hnd hmem hpre

/-- Localisation: lookups under project `p` in the reduced map are decided
entirely by `p`'s own pass (other projects write only their own keys). -/
theorem reduce_localize (idx : Index) (today : Nat) (p : String)
    (es : List (String × Entry))
    (hes : lookupA (group_by_project idx) p = some es) (hidx : idx ≠ []) :
    ∃ res, ∀ x, lookupA (reduce_overrides_asof_today idx today) (p, x) =
      lookupA (process_project today res (p, es)) (p, x) := by
  have houter := group_by_project_outer_nodup idx
  have hmem : (p, es) ∈ group_by_project idx :=
    mem_of_lookupA _ p es hes
  obtain ⟨g1, g2, hsplit⟩ := List.append_of_mem hmem
  have hg2 : ∀ g ∈ g2, g.1 ≠ p := by
    have hpw := houter
    rw [hsplit] at hpw
    obtain ⟨-, hpw2, -⟩ := List.pairwise_append.mp hpw
    obtain ⟨hhd, -⟩ := List.pairwise_cons.mp hpw2
    intro g hg
    exact Ne.symm (hhd g hg)
  refine ⟨g1.foldl (process_project today) [], ?_⟩
  intro x
  unfold reduce_overrides_asof_today
  rw [if_neg hidx, hsplit, List.foldl_append, List.foldl_cons]
  exact groups_fold_other today p g2 _ x hg2

/-- Evaluating the reduced building entry when a milestone is selected. -/
theorem reduced_building_entry_of_select (today : Nat) (be : Entry)
    (c k : String) (v : OValue)
    (hsel : select_latest_milestone_for_today be.overrides
      building_milestone_codes today = some (c, k, v)) :
    reduced_building_entry today be =
      ({ overrides := [(k, v)], timestamp := be.timestamp,
         building_id := be.building_id,
         normalized_building_id := be.normalized_building_id,
         pre_kickoff := false }, ⟨some c⟩) := by
  unfold reduced_building_entry
  rw [hsel]

/-- The preferred-building branch of `unit_chosen`: a truthy normalized
building id whose lookup key is present selects exactly that building. -/
theorem unit_chosen_pref (bsel : List (String × BSel)) (nb : Option String)
    (bKey : String) (s : BSel) (hnb : optTruthy nb = true)
    (hkey : build_building_lookup_key nb = bKey)
    (hlk : lookupA bsel bKey = some s) :
    unit_chosen bsel nb = (bKey, s) := by
  unfold unit_chosen
  rw [if_pos hnb, hkey]
  show (match lookupA bsel bKey with
        | some s => (bKey, s)
        | none => bsel.headD ("", ⟨none⟩)) = (bKey, s)
  rw [hlk]

/-! ## A probe fact over the empty dict -/

theorem first_match_nil_dict (codes : List String) :
    first_match codes [[]] = none := by
  unfold first_match
  refine firstSome_eq_none_of _ codes (fun code _ => ?_)
  rw [firstSome_singleton, dict_probe_nil]
  rfl

/-! ## Claim theorems -/

/-- C1: in the combined as-of-today pipeline, any milestone the legacy
resolver emits from entries of the reduced override map carries a parsed
date on or before today — a future-dated override value is never chosen,
for building-level and unit-level codes alike. -/
theorem claim_C1_asof_resolution_never_future
    (idx : Index) (today : Nat) (uo bo : Option OvDict) (c : String)
    (v : OValue)
    (hu : uo = none ∨ ∃ k e,
      lookupA (reduce_overrides_asof_today idx today) k = some e ∧
      uo = some e.overrides)
    (hb : bo = none ∨ ∃ k e,
      lookupA (reduce_overrides_asof_today idx today) k = some e ∧
      bo = some e.overrides)
    (hres : resolve_milestone uo bo = some (c, v)) :
    ∃ i, ovParse v = some i ∧ i.day ≤ today := by
  have hshape := reduce_shape idx today
  obtain ⟨-, hcases⟩ := resolve_milestone_mem uo bo c v hres
  have hfrom : ∃ k e, lookupA (reduce_overrides_asof_today idx today) k = some e ∧
      ∃ q, lookupA e.overrides q = some v := by
    rcases hcases with ⟨d, q, hd, hlk⟩ | ⟨d, q, hd, hlk⟩
    · rcases hu with rfl | ⟨k, e, hke, hue⟩
      · cases hd
      · rw [hue] at hd
        obtain rfl := Option.some.inj hd
        exact ⟨k, e, hke, q, hlk⟩
    · rcases hb with rfl | ⟨k, e, hke, hbe⟩
      · cases hd
      · rw [hbe] at hd
        obtain rfl := Option.some.inj hd
        exact ⟨k, e, hke, q, hlk⟩
  obtain ⟨k, e, hke, q, hlk⟩ := hfrom
  rcases hshape k e hke with hnil | ⟨m, codes, c0, k0, v0, -, hsel, hov⟩
  · rw [hnil] at hlk
    cases hlk
  · rw [hov] at hlk
    by_cases hq : k0 = q
    · simp only [lookupA, if_pos hq] at hlk
      obtain rfl := Option.some.inj hlk
      obtain ⟨i, hvi, hday, -, -, -⟩ := select_sound m codes today c0 k0 v0 hsel
      exact ⟨i, by rw [hvi]; rfl, hday⟩
    · simp only [lookupA, if_neg hq] at hlk
      cases hlk

/-- Witness for C1 at a concrete reduced map. -/
theorem claim_C1_witness :
    ∃ i, ovParse (OValue.date ⟨14, 0⟩) = some i ∧ i.day ≤ 20 :=
  claim_C1_asof_resolution_never_future sampleIdx 20
    (some sampleReducedU.overrides) (some sampleReducedB.overrides)
    "U6" (OValue.date ⟨14, 0⟩)
    (Or.inr ⟨("p", "101"), sampleReducedU, by decide, rfl⟩)
    (Or.inr ⟨("p", "#building::a1"), sampleReducedB, by decide, rfl⟩)
    (by decide)

/-- C9: every entry of the reduced override map carries at most one
milestone binding — exactly the as-of-today selection, or none — so the
downstream legacy selection over a reduced entry is deterministic. -/
theorem claim_C9_reduced_entry_single_milestone
    (idx : Index) (today : Nat) (k : String × String) (e : Entry)
    (h : lookupA (reduce_overrides_asof_today idx today) k = some e) :
    e.overrides.length ≤ 1 ∧ ReducedShape today e := by
  have hshape := reduce_shape idx today k e h
  refine ⟨?_, hshape⟩
  rcases hshape with hnil | ⟨m, codes, c, q, v, -, -, hov⟩
  · rw [hnil]; decide
  · rw [hov]; simp

/-- Witness for C9 at a concrete reduced map. -/
theorem claim_C9_witness :
    sampleReducedU.overrides.length ≤ 1 ∧ ReducedShape 20 sampleReducedU :=
  claim_C9_reduced_entry_single_milestone sampleIdx 20 ("p", "101")
    sampleReducedU (by decide)

/-- C2: the building-to-unit hand-off of the reducer.  For a unit matched
to its building (via its normalized building id), when the latest building
milestone on or before today is not the terminal code `B11`, the unit's
reduced entry drops its own unit overrides and the legacy resolver
displays the building code/date for it; when that latest qualifying
building code is `B11`, a unit with a qualifying unit milestone displays
the chronologically latest such unit code/date, and a unit with none
continues to display `B11`. -/
theorem claim_C2_building_unit_handoff
    (idx : Index) (today : Nat) (p bKey uKey nb : String) (be ue : Entry)
    (bcode bk : String) (bv : OValue)
    (hnd : keysNodup idx)
    (hb : lookupA idx (p, bKey) = some be)
    (hbpre : strStartsWith bKey "#building" = true)
    (hu : lookupA idx (p, uKey) = some ue)
    (hupre : strStartsWith uKey "#building" = false)
    (hnb : ue.normalized_building_id = some nb) (hnbne : nb ≠ "")
    (hkey : build_building_lookup_key (some nb) = bKey)
    (hsel : select_latest_milestone_for_today be.overrides
      building_milestone_codes today = some (bcode, bk, bv)) :
    ∃ be2 ue2,
      lookupA (reduce_overrides_asof_today idx today) (p, bKey) = some be2 ∧
      lookupA (reduce_overrides_asof_today idx today) (p, uKey) = some ue2 ∧
      be2.overrides = [(bk, bv)] ∧
      (bcode ≠ "B11" →
        ue2.overrides = [] ∧
        resolve_milestone (some ue2.overrides) (some be2.overrides) =
          some (bcode, bv)) ∧
      (bcode = "B11" →
        (∀ uc uk uv,
          select_latest_milestone_for_today ue.overrides unit_milestone_codes
            today = some (uc, uk, uv) →
          ue2.overrides = [(uk, uv)] ∧
          resolve_milestone (some ue2.overrides) (some be2.overrides) =
            some (uc, uv) ∧
          latest_qualifying ue.overrides unit_milestone_codes today uv) ∧
        (select_latest_milestone_for_today ue.overrides unit_milestone_codes
            today = none →
          ue2.overrides = [] ∧
          resolve_milestone (some ue2.overrides) (some be2.overrides) =
            some ("B11", bv))) := by
  have hidx : idx ≠ [] := by
    intro hnil
    rw [hnil] at hb
    cases hb
  obtain ⟨i, hbvdate, hbvday, -, hbk, hbc⟩ :=
    select_sound be.overrides building_milestone_codes today bcode bk bv hsel
  have hbvblank : isBlank bv = false := by rw [hbvdate]; rfl
  -- locate the project's group
  have hgb := group_by_project_lookup idx p bKey hnd
  rw [hb] at hgb
  have hgu := group_by_project_lookup idx p uKey hnd
  rw [hu] at hgu
  unfold lookupPU at hgb hgu
  cases hes : lookupA (group_by_project idx) p with
  | none =>
      rw [hes] at hgb
      cases hgb
  | some es =>
      rw [hes] at hgb hgu
      simp only [Option.some_bind] at hgb hgu
      have hesnd : keysNodup es := group_by_project_inner_nodup idx p es hes
      have hmembe : (bKey, be) ∈ es := mem_of_lookupA es bKey be hgb
      have hmemue : (uKey, ue) ∈ es := mem_of_lookupA es uKey ue hgu
      obtain ⟨res0, hloc⟩ := reduce_localize idx today p es hes hidx
      -- the reduced building entry
      have hred := reduced_building_entry_of_select today be bcode bk bv hsel
      have hbat := process_project_at_building today res0 p es bKey be
        hesnd hmembe hbpre
      rw [hred] at hbat
      -- the reduced unit entry
      obtain ⟨ue2, huat, huov⟩ := process_project_at_unit today res0 p es
        uKey ue hesnd hmemue hupre
      -- the building selection seen by the unit loop
      have hbphase := building_phase_at today p res0 es bKey be hesnd hmembe hbpre
      rw [hred] at hbphase
      have hchosen : unit_chosen (building_phase today p res0 es).2
          ue.normalized_building_id = (bKey, ⟨some bcode⟩) := by
        rw [hnb]
        exact unit_chosen_pref _ (some nb) bKey ⟨some bcode⟩
          (by simp [optTruthy, hnbne]) hkey hbphase.2
      rw [unit_reduced_overrides, hchosen] at huov
      refine ⟨{ overrides := [(bk, bv)], timestamp := be.timestamp,
                building_id := be.building_id,
                normalized_building_id := be.normalized_building_id,
                pre_kickoff := false }, ue2, ?_, ?_, rfl, ?_, ?_⟩
      · rw [hloc bKey]
        exact hbat
      · rw [hloc uKey]
        exact huat
      · -- non-terminal building code: unit overrides dropped, building shown
        intro hne
        have hcond : (some bcode ≠ some "B11") := by simpa using hne
        rw [if_pos hcond] at huov
        refine ⟨huov, ?_⟩
        rw [huov, resolve_eq_both, first_match_nil_dict, first_match_append_nil]
        rw [first_match_single building_milestone_codes bcode bk bv
          building_codes_keys_disjoint hbc hbk hbvblank]
      · -- terminal building code: hand off to the unit vocabulary
        intro hB11
        subst hB11
        have hcond : ¬(some "B11" ≠ some "B11") := by simp
        rw [if_neg hcond] at huov
        constructor
        · intro uc uk uv husel
          rw [husel] at huov
          obtain ⟨j, huvdate, huvday, -, huk, huc⟩ :=
            select_sound ue.overrides unit_milestone_codes today uc uk uv husel
          have huvblank : isBlank uv = false := by rw [huvdate]; rfl
          refine ⟨huov, ?_, ?_⟩
          · rw [huov, resolve_eq_both]
            rw [first_match_single unit_milestone_codes uc uk uv
              unit_codes_keys_disjoint huc huk huvblank]
          · refine ⟨j, by rw [huvdate]; rfl, huvday, ?_⟩
            intro c2 hc2 k2 hk2 i2 hlk2 hd2
            obtain ⟨j2, hpj2, hle⟩ := select_latest ue.overrides
              unit_milestone_codes today uc uk uv husel c2 hc2 k2 hk2 i2 hlk2 hd2
            have : j2 = j := by
              rw [huvdate] at hpj2
              exact (Option.some.inj hpj2).symm
            rw [← this]
            exact hle
        · intro husel
          rw [husel] at huov
          refine ⟨huov, ?_⟩
          rw [huov, resolve_eq_both, first_match_nil_dict, first_match_append_nil]
          rw [first_match_single building_milestone_codes "B11" bk bv
            building_codes_keys_disjoint hbc hbk hbvblank]

/-- Witness for C2 at a concrete index (terminal building code `B11`
selected as of day 20; the unit's own `U6` milestone takes over). -/
theorem claim_C2_witness :
    ∃ be2 ue2,
      lookupA (reduce_overrides_asof_today sampleIdx 20)
        ("p", "#building::a1") = some be2 ∧
      lookupA (reduce_overrides_asof_today sampleIdx 20) ("p", "101") =
        some ue2 ∧
      be2.overrides = [("install_windows_exterior_doors", OValue.date ⟨12, 0⟩)] ∧
      ("B11" ≠ "B11" →
        ue2.overrides = [] ∧
        resolve_milestone (some ue2.overrides) (some be2.overrides) =
          some ("B11", OValue.date ⟨12, 0⟩)) ∧
      ("B11" = "B11" →
        (∀ uc uk uv,
          select_latest_milestone_for_today sampleU.overrides
            unit_milestone_codes 20 = some (uc, uk, uv) →
          ue2.overrides = [(uk, uv)] ∧
          resolve_milestone (some ue2.overrides) (some be2.overrides) =
            some (uc, uv) ∧
          latest_qualifying sampleU.overrides unit_milestone_codes 20 uv) ∧
        (select_latest_milestone_for_today sampleU.overrides
            unit_milestone_codes 20 = none →
          ue2.overrides = [] ∧
          resolve_milestone (some ue2.overrides) (some be2.overrides) =
            some ("B11", OValue.date ⟨12, 0⟩))) :=
  claim_C2_building_unit_handoff sampleIdx 20 "p" "#building::a1" "101" "a1"
    sampleB sampleU "B11" "install_windows_exterior_doors"
    (OValue.date ⟨12, 0⟩) (by unfold keysNodup; decide) (by decide)
    (by decide) (by decide) (by decide) (by decide) (by decide) (by decide)
    (by decide)

/-! ## The overwrite discipline of the index builder (claim C3) -/

theorem instLTb_irrefl (t : Instant) : instLTb t t = false := by
  simp [instLTb]

theorem refreshed_entry_overrides (ex : Entry) (ts : Option Instant)
    (bid norm : Option String) (bpk : Bool) :
    (refreshed_entry ex ts bid norm bpk).overrides = ex.overrides := rfl

theorem refreshed_entry_timestamp (ex : Entry) (ts : Option Instant)
    (bid norm : Option String) (bpk : Bool) :
    (refreshed_entry ex ts bid norm bpk).timestamp =
      if is_newer_ts ex.timestamp ts then ts else ex.timestamp := rfl

theorem should_replace_none_ts (e : Entry) :
    should_replace (some e) none = false := by
  obtain ⟨ov, tsf, bi, nb, pk⟩ := e
  cases tsf <;> rfl

theorem should_replace_et_none (e : Entry) (ts : Option Instant)
    (h : e.timestamp = none) : should_replace (some e) ts = false := by
  obtain ⟨ov, tsf, bi, nb, pk⟩ := e
  cases tsf with
  | none => cases ts <;> rfl
  | some et => exact Option.noConfusion h

theorem should_replace_both (e : Entry) (et t : Instant)
    (h : e.timestamp = some et) :
    should_replace (some e) (some t) = instLTb et t := by
  obtain ⟨ov, tsf, bi, nb, pk⟩ := e
  cases tsf with
  | none => exact Option.noConfusion h
  | some et2 =>
      have he : et2 = et := Option.some.inj h
      subst he
      rfl

theorem should_replace_refreshed (ex : Entry) (ts : Option Instant)
    (bid norm : Option String) (bpk : Bool)
    (h : should_replace (some ex) ts = false) :
    should_replace (some (refreshed_entry ex ts bid norm bpk)) ts = false := by
  cases hts : ts with
  | none => exact should_replace_none_ts _
  | some t =>
      have htime : (refreshed_entry ex (some t) bid norm bpk).timestamp =
          if is_newer_ts ex.timestamp (some t) then some t else ex.timestamp :=
        refreshed_entry_timestamp ex (some t) bid norm bpk
      subst hts
      by_cases hn : is_newer_ts ex.timestamp (some t) = true
      · have h2 : (refreshed_entry ex (some t) bid norm bpk).timestamp = some t := by
          rw [htime, if_pos hn]
        rw [should_replace_both _ t t h2]
        exact instLTb_irrefl t
      · have h2 : (refreshed_entry ex (some t) bid norm bpk).timestamp =
            ex.timestamp := by
          rw [htime, if_neg hn]
        cases het : ex.timestamp with
        | none =>
            exact should_replace_et_none _ _ (by rw [h2, het])
        | some et =>
            rw [should_replace_both _ et t (by rw [h2, het])]
            rw [should_replace_both ex et t het] at h
            exact h

theorem ovstable_building_write (orig : Entry) (ts : Option Instant)
    (m : Index) (k key : String × String) (bo : Option OvDict)
    (bid norm : Option String) (bpk : Bool)
    (h : OvStable orig ts m k) :
    OvStable orig ts (ops_building_write m key bo ts bid norm bpk) k := by
  obtain ⟨e2, hlk, hov, hrep⟩ := h
  unfold ops_building_write
  cases bo with
  | none => exact ⟨e2, hlk, hov, hrep⟩
  | some o =>
      show OvStable orig ts
        (if o ≠ [] ∧ should_replace (lookupA m key) ts = true then
          upsert m key
            { overrides := o, timestamp := ts, building_id := bid,
              normalized_building_id := norm, pre_kickoff := bpk }
        else m) k
      by_cases hkey : key = k
      · subst hkey
        rw [hlk, hrep]
        simp only [Bool.false_eq_true, and_false, if_false]
        exact ⟨e2, hlk, hov, hrep⟩
      · by_cases hc : o ≠ [] ∧ should_replace (lookupA m key) ts = true
        · rw [if_pos hc]
          exact ⟨e2, by rw [lookupA_upsert_ne m key k _ hkey]; exact hlk,
            hov, hrep⟩
        · rw [if_neg hc]
          exact ⟨e2, hlk, hov, hrep⟩

theorem ovstable_refresh (orig : Entry) (ts : Option Instant)
    (m : Index) (k key : String × String) (bid norm : Option String)
    (bpk : Bool) (h : OvStable orig ts m k) :
    OvStable orig ts (refresh_building_meta m key ts bid norm bpk) k := by
  obtain ⟨e2, hlk, hov, hrep⟩ := h
  unfold refresh_building_meta
  by_cases hkey : key = k
  · subst hkey
    rw [hlk]
    refine ⟨refreshed_entry e2 ts bid norm bpk, lookupA_upsert_self _ _ _,
      ?_, ?_⟩
    · rw [refreshed_entry_overrides]; exact hov
    · exact should_replace_refreshed e2 ts bid norm bpk hrep
  · cases hkl : lookupA m key with
    | some ex =>
        exact ⟨e2, by rw [lookupA_upsert_ne m key k _ hkey]; exact hlk,
          hov, hrep⟩
    | none =>
        by_cases hbpk : bpk = true
        · rw [if_pos hbpk]
          exact ⟨e2, by rw [lookupA_upsert_ne m key k _ hkey]; exact hlk,
            hov, hrep⟩
        · rw [if_neg hbpk]
          exact ⟨e2, hlk, hov, hrep⟩

theorem ovstable_unit_write (orig : Entry) (ts : Option Instant)
    (m : Index) (k key : String × String) (uo : OvDict)
    (bid norm : Option String) (upk : Bool) (h : OvStable orig ts m k) :
    OvStable orig ts (ops_unit_write m key uo ts bid norm upk).1 k := by
  obtain ⟨e2, hlk, hov, hrep⟩ := h
  unfold ops_unit_write
  by_cases hkey : key = k
  · subst hkey
    rw [hlk, hrep]
    simp only [Bool.false_eq_true, if_false]
    exact ⟨e2, hlk, hov, hrep⟩
  · by_cases hc : should_replace (lookupA m key) ts = true
    · rw [if_pos hc]
      exact ⟨e2, by rw [lookupA_upsert_ne m key k _ hkey]; exact hlk,
        hov, hrep⟩
    · rw [if_neg hc]
      exact ⟨e2, hlk, hov, hrep⟩

theorem ovstable_fallback_write (orig : Entry) (ts : Option Instant)
    (m : Index) (k key : String × String) (bid norm : Option String)
    (upk : Bool) (h : OvStable orig ts m k) :
    OvStable orig ts (ops_unit_fallback_write m key ts bid norm upk) k := by
  obtain ⟨e2, hlk, hov, hrep⟩ := h
  unfold ops_unit_fallback_write
  by_cases hkey : key = k
  · subst hkey
    rw [hlk, hrep]
    simp only [Bool.false_eq_true, if_false]
    exact ⟨e2, hlk, hov, hrep⟩
  · by_cases hc : should_replace (lookupA m key) ts = true
    · rw [if_pos hc]
      exact ⟨e2, by rw [lookupA_upsert_ne m key k _ hkey]; exact hlk,
        hov, hrep⟩
    · rw [if_neg hc]
      exact ⟨e2, hlk, hov, hrep⟩

theorem ovstable_unit_steps (orig : Entry) (ts : Option Instant)
    (m : Index) (k : String × String) (raw : Item) (d : ItemData)
    (project_key : String) (bid norm : Option String)
    (h : OvStable orig ts m k) :
    OvStable orig ts (ops_unit_steps m raw d project_key ts bid norm) k := by
  unfold ops_unit_steps
  have hfall : ∀ (st : Index × Bool), OvStable orig ts st.1 k →
      OvStable orig ts
        (if st.2 = false ∧ optTruthy bid then
          match normalize_unit_number (pyOrOS raw.unit_number raw.sk) with
          | some uf =>
              ops_unit_fallback_write st.1 (project_key, uf) ts bid norm
                (extract_pre_kickoff_flag [d.unit, d.building])
          | none => st.1
        else st.1) k := by
    intro st hst
    by_cases hcond : st.2 = false ∧ optTruthy bid = true
    · rw [if_pos hcond]
      cases hnorm : normalize_unit_number (pyOrOS raw.unit_number raw.sk) with
      | some uf =>
          exact ovstable_fallback_write orig ts st.1 k (project_key, uf)
            bid norm (extract_pre_kickoff_flag [d.unit, d.building]) hst
      | none => exact hst
    · rw [if_neg hcond]
      exact hst
  refine hfall _ ?_
  cases hud : d.unit with
  | none => exact h
  | some upl =>
      dsimp only
      cases huo : upl.overrides with
      | none => exact h
      | some uo =>
          dsimp only
          by_cases hne : uo ≠ []
          · rw [if_pos hne]
            cases hnm : normalize_unit_number
                (if optTruthy upl.unit_number then upl.unit_number
                 else if (pyOrOS raw.unit_number raw.sk).isSome then
                   pyOrOS raw.unit_number raw.sk
                 else raw.sk) with
            | some uKey =>
                exact ovstable_unit_write orig ts m k (project_key, uKey) uo
                  bid norm _ h
            | none => exact h
          · rw [if_neg hne]
            exact h

theorem ovstable_process_item (orig : Entry) (m : Index) (i : Item)
    (k : String × String) (h : OvStable orig i.updated_at m k) :
    OvStable orig i.updated_at (process_ops_item m i) k := by
  unfold process_ops_item
  by_cases hpk : item_project_key i = ""
  · rw [if_pos hpk]
    exact h
  · rw [if_neg hpk]
    cases hdata : i.data with
    | none => exact h
    | some d =>
        exact ovstable_unit_steps orig i.updated_at _ k i d _ _ _
          (ovstable_refresh orig i.updated_at _ k _ _ _ _
            (ovstable_building_write orig i.updated_at m k _ _ _ _ _ h))

/-- Counterexample to the frozen C3 wording: among the two items targeting
the key `("p3", "7")` only `itmB3` has a parseable `updated_at`, yet
scanning `[itmA3, itmB3]` leaves `itmA3`'s payload in place, while the
reverse scan order leaves `itmB3`'s payload — so the survivor is neither
the latest-parseable-timestamp payload nor independent of scan order. -/
theorem claim_C3_counterexample :
    itmA3.updated_at = none ∧ itmB3.updated_at = some ⟨9, 0⟩ ∧
    lookupA (build_ops_override_index [itmA3, itmB3]) ("p3", "7") =
      some entA3 ∧
    entA3.overrides = ovA3 ∧ ¬ ovA3 = ovB3 ∧
    lookupA (build_ops_override_index [itmB3, itmA3]) ("p3", "7") =
      some entB3 ∧
    entB3.overrides = ovB3 :=
  ⟨rfl, rfl, by decide, rfl, by decide, by decide, rfl⟩

/-- C3 (amended): an entry already present at a lookup key survives the
scan of a further item — same overrides payload still recorded under the
key — whenever the item does not satisfy the overwrite guard against it:
the guard passes only when both the existing entry and the item carry
parseable timestamps and the existing one is strictly older.  In
particular an item lacking a parseable timestamp never overwrites an
existing entry, and an entry lacking a timestamp is never overwritten by
the overrides-write sites during that item's scan. -/
theorem claim_C3_overwrite_discipline (m : Index) (i : Item)
    (k : String × String) (e : Entry)
    (hex : lookupA m k = some e)
    (hstale : should_replace (some e) i.updated_at = false) :
    ∃ e2, lookupA (process_ops_item m i) k = some e2 ∧
      e2.overrides = e.overrides ∧
      should_replace (some e2) i.updated_at = false := by
  obtain ⟨e2, h1, h2, h3⟩ :=
    ovstable_process_item e m i k ⟨e, hex, rfl, hstale⟩
  exact ⟨e2, h1, h2, h3⟩

theorem claim_C3_witness :
    lookupA (build_ops_override_index [itmA3]) ("p3", "7") = some entA3 ∧
    should_replace (some entA3) itmB3.updated_at = false ∧
    ∃ e2, lookupA (process_ops_item (build_ops_override_index [itmA3]) itmB3)
        ("p3", "7") = some e2 ∧
      e2.overrides = entA3.overrides ∧
      should_replace (some e2) itmB3.updated_at = false :=
  ⟨by decide, by decide,
    claim_C3_overwrite_discipline (build_ops_override_index [itmA3]) itmB3
      ("p3", "7") entA3 (by decide) (by decide)⟩

/-- C4 (code bug): the index built from `item4` records `pre_kickoff =
true` on both the building and the unit entry, and the application pass
does honour that flag when handed the raw index — yet
`_reduce_overrides_asof_today` rebuilds every reduced entry without a
`pre_kickoff` field, so the full pipeline (build, reduce as of today,
apply) emits milestone code `"B1"` with its date for the matching row
instead of suppressing it; only the building-identity metadata behaves as
specified. -/
theorem claim_C4_pre_kickoff_dropped :
    (lookupA (build_ops_override_index [item4]) ("aria", "101")).map
        Entry.pre_kickoff = some true ∧
    (lookupA (build_ops_override_index [item4])
        ("aria", "#building::a1")).map Entry.pre_kickoff = some true ∧
    (apply_ops_overrides [row4] (build_ops_override_index [item4])).map
        (fun r => (r.opsMilestoneCode, r.opsMilestoneDate, r.opsCOE)) =
      [(.cstr "", .cstr "", .cstr "")] ∧
    (∀ kv ∈ reduce_overrides_asof_today (build_ops_override_index [item4]) 20,
      kv.2.pre_kickoff = false) ∧
    (hso_pipeline [item4] [row4] 20).map
        (fun r => (r.opsMilestoneCode, r.opsMilestoneDate, r.opsCOE,
          r.building_id)) =
      [(.cstr "B1", .cdate ⟨10, 0⟩, .cstr "", .cstr "A1")] := by
  refine ⟨by decide, by decide, by decide, by decide, by decide⟩

/-! ## Claims C10 and C8: empty-map identity and degraded load -/

/-- C10: `_apply_ops_overrides` with an empty override map returns its
input dataset unchanged — no column fills and no StatusNumeric coercion
are applied on that path. -/
theorem claim_C10_empty_map_identity (df : List Row) :
    apply_ops_overrides df [] = df := rfl

/-- C8: when the override load fails, the run degrades to an empty index —
the primary table equals both the table built with an explicitly empty
override map and the table of a successful load of zero items, and the HSO
loader likewise returns the empty index rather than propagating the
error. -/
theorem claim_C8_failure_degrades (records : List Row) (e : String)
    (excluded : List String) (y : Nat) (tableName : String) :
    run_primary_report records (.error e) excluded y =
      build_dataframe records [] excluded y ∧
    run_primary_report records (.error e) excluded y =
      run_primary_report records (.ok []) excluded y ∧
    hso_load_ops_overrides tableName (.error e) = [] := by
  refine ⟨rfl, rfl, ?_⟩
  unfold hso_load_ops_overrides
  by_cases h : tableName = ""
  · rw [if_pos h]
  · rw [if_neg h]
    rfl

/-! ## Claim C7: the frame of the application pass -/

theorem coerce_ops_columns_frame (r : Row) :
    (coerce_ops_columns r).projectName = r.projectName ∧
    (coerce_ops_columns r).altProjectName = r.altProjectName ∧
    (coerce_ops_columns r).contractUnitNumber = r.contractUnitNumber ∧
    (coerce_ops_columns r).status = r.status ∧
    (coerce_ops_columns r).statusNumeric =
      .cint (to_numeric_fill99 r.statusNumeric) ∧
    (coerce_ops_columns r).coeDate = r.coeDate ∧
    (coerce_ops_columns r).buyersCombined = r.buyersCombined ∧
    (coerce_ops_columns r).others = r.others :=
  ⟨rfl, rfl, rfl, rfl, rfl, rfl, rfl, rfl⟩

theorem apply_ops_row_frame (ovr : Index) (r : Row) :
    (apply_ops_row ovr r).projectName = r.projectName ∧
    (apply_ops_row ovr r).altProjectName = r.altProjectName ∧
    (apply_ops_row ovr r).contractUnitNumber = r.contractUnitNumber ∧
    (apply_ops_row ovr r).status = r.status ∧
    (apply_ops_row ovr r).statusNumeric = r.statusNumeric ∧
    (apply_ops_row ovr r).coeDate = r.coeDate ∧
    (apply_ops_row ovr r).buyersCombined = r.buyersCombined ∧
    (apply_ops_row ovr r).others = r.others := by
  unfold apply_ops_row
  cases hk : cell_unit_key r.contractUnitNumber with
  | none => exact ⟨rfl, rfl, rfl, rfl, rfl, rfl, rfl, rfl⟩
  | some unitKey =>
      dsimp only
      split
      · exact ⟨rfl, rfl, rfl, rfl, rfl, rfl, rfl, rfl⟩
      · repeat' split
        all_goals exact ⟨rfl, rfl, rfl, rfl, rfl, rfl, rfl, rfl⟩

/-- C7 (amended): with a non-empty override map the application pass has a
confined frame on every row — project and alt-project names, unit number,
Status, COE date, combined buyers and all other passthrough columns are
unchanged — except that StatusNumeric is numerically coerced with the 99
default (so it is not always equal before and after, contrary to the
frozen wording). -/
theorem claim_C7_frame_confinement (df : List Row) (ovr : Index)
    (hne : ovr ≠ []) :
    List.Forall₂ (fun r r2 =>
      r2.projectName = r.projectName ∧
      r2.altProjectName = r.altProjectName ∧
      r2.contractUnitNumber = r.contractUnitNumber ∧
      r2.status = r.status ∧
      r2.statusNumeric = .cint (to_numeric_fill99 r.statusNumeric) ∧
      r2.coeDate = r.coeDate ∧
      r2.buyersCombined = r.buyersCombined ∧
      r2.others = r.others)
      df (apply_ops_overrides df ovr) := by
  unfold apply_ops_overrides
  rw [if_neg hne, List.map_map, List.forall₂_map_right_iff,
    List.forall₂_same]
  intro r _
  obtain ⟨a1, a2, a3, a4, a5, a6, a7, a8⟩ :=
    apply_ops_row_frame ovr (coerce_ops_columns r)
  obtain ⟨c1, c2, c3, c4, c5, c6, c7, c8⟩ := coerce_ops_columns_frame r
  exact ⟨a1.trans c1, a2.trans c2, a3.trans c3, a4.trans c4, a5.trans c5,
    a6.trans c6, a7.trans c7, a8.trans c8⟩

/-- Counterexample to the frozen C7 wording: with a non-empty override map
a row whose StatusNumeric is missing comes out with StatusNumeric `99` —
the field is not equal before and after the pass. -/
theorem claim_C7_counterexample :
    ovr7 ≠ [] ∧ row7.statusNumeric = .na ∧
    (apply_ops_overrides [row7] ovr7).map Row.statusNumeric =
      [.cint 99] ∧
    ¬ (Cell.na = Cell.cint 99) := by
  refine ⟨by decide, rfl, by decide, by decide⟩

theorem claim_C7_witness :
    ovr7 ≠ [] ∧
    List.Forall₂ (fun r r2 =>
      r2.projectName = r.projectName ∧
      r2.altProjectName = r.altProjectName ∧
      r2.contractUnitNumber = r.contractUnitNumber ∧
      r2.status = r.status ∧
      r2.statusNumeric = .cint (to_numeric_fill99 r.statusNumeric) ∧
      r2.coeDate = r.coeDate ∧
      r2.buyersCombined = r.buyersCombined ∧
      r2.others = r.others)
      [row7] (apply_ops_overrides [row7] ovr7) :=
  ⟨by decide, claim_C7_frame_confinement [row7] ovr7 (by decide)⟩

/-! ## Claims C5 and C6: the source merger's dedup discipline -/

theorem lookupA_map_keys {ν : Type} (cols : List String) (f : String → ν)
    (c : String) (hc : c ∈ cols) :
    lookupA (cols.map (fun q => (q, f q))) c = some (f c) := by
  induction cols with
  | nil => cases hc
  | cons q rest ih =>
      by_cases hq : q = c
      · subst hq
        simp [lookupA]
      · have hc2 : c ∈ rest := by
          cases hc with
          | head => exact absurd rfl hq
          | tail _ h => exact h
        simp only [List.map_cons, lookupA, if_neg hq]
        exact ih hc2

theorem getCol_project (cols : List String) (r : CRow) (c : String)
    (hc : c ∈ cols) : getCol (project_columns cols r) c = getCol r c := by
  show (lookupA (cols.map (fun q => (q, getCol r q))) c).getD .na = getCol r c
  rw [lookupA_map_keys cols (fun q => getCol r q) c hc]
  rfl

theorem lookupA_coerce_dates (r : CRow) (c : String) :
    lookupA (coerce_dates_row r) c =
      (lookupA r c).map
        (fun v => if c ∈ date_columns then to_datetime_cell v else v) := by
  induction r with
  | nil => rfl
  | cons cv rest ih =>
      obtain ⟨k, v⟩ := cv
      show lookupA
          ((if k ∈ date_columns then (k, to_datetime_cell v) else (k, v)) ::
            coerce_dates_row rest) c = _
      by_cases hd : k ∈ date_columns
      · rw [if_pos hd]
        show (if k = c then some (to_datetime_cell v)
              else lookupA (coerce_dates_row rest) c) = _
        by_cases hk : k = c
        · rw [if_pos hk]
          show _ = (if k = c then some v else lookupA rest c).map _
          rw [if_pos hk]
          subst hk
          simp [hd]
        · rw [if_neg hk, ih]
          show _ = (if k = c then some v else lookupA rest c).map _
          rw [if_neg hk]
      · rw [if_neg hd]
        show (if k = c then some v
              else lookupA (coerce_dates_row rest) c) = _
        by_cases hk : k = c
        · rw [if_pos hk]
          show _ = (if k = c then some v else lookupA rest c).map _
          rw [if_pos hk]
          subst hk
          simp [hd]
        · rw [if_neg hk, ih]
          show _ = (if k = c then some v else lookupA rest c).map _
          rw [if_neg hk]

theorem getCol_coerce_dates (r : CRow) (c : String) (hd : c ∉ date_columns) :
    getCol (coerce_dates_row r) c = getCol r c := by
  show (lookupA (coerce_dates_row r) c).getD .na = (lookupA r c).getD .na
  rw [lookupA_coerce_dates]
  cases lookupA r c with
  | none => rfl
  | some v => simp [hd]

theorem row_identity_image (cols : List String) (r : CRow)
    (hp : "Project Name" ∈ cols) (hu : "Contract Unit Number" ∈ cols) :
    row_identity (coerce_dates_row (project_columns cols r)) =
      row_identity r := by
  unfold row_identity
  rw [getCol_coerce_dates _ _ (by decide), getCol_coerce_dates _ _ (by decide),
    getCol_project cols r _ hp, getCol_project cols r _ hu]

theorem mem_dedup_keep_last (l : List CRow) (x : CRow)
    (hx : x ∈ dedup_keep_last l) : x ∈ l := by
  induction l with
  | nil => cases hx
  | cons r rest ih =>
      unfold dedup_keep_last at hx
      by_cases ha :
          rest.any (fun r2 => decide (row_identity r2 = row_identity r)) = true
      · rw [if_pos ha] at hx
        exact List.mem_cons_of_mem r (ih hx)
      · rw [if_neg ha] at hx
        cases hx with
        | head => exact List.mem_cons_self _ _
        | tail _ h => exact List.mem_cons_of_mem r (ih h)

theorem dedup_keep_last_pairwise (l : List CRow) :
    (dedup_keep_last l).Pairwise
      (fun a b => row_identity a ≠ row_identity b) := by
  induction l with
  | nil => exact List.Pairwise.nil
  | cons r rest ih =>
      unfold dedup_keep_last
      by_cases ha :
          rest.any (fun r2 => decide (row_identity r2 = row_identity r)) = true
      · rw [if_pos ha]
        exact ih
      · rw [if_neg ha]
        refine List.Pairwise.cons ?_ ih
        intro b hb he
        apply ha
        rw [List.any_eq_true]
        exact ⟨b, mem_dedup_keep_last rest b hb, decide_eq_true he.symm⟩

theorem dedup_keep_last_filter (l : List CRow) (k : Cell × Cell) :
    (dedup_keep_last l).filter (fun r => decide (row_identity r = k)) =
      ((l.filter (fun r => decide (row_identity r = k))).getLast?).toList := by
  induction l with
  | nil => rfl
  | cons r rest ih =>
      unfold dedup_keep_last
      by_cases ha :
          rest.any (fun r2 => decide (row_identity r2 = row_identity r)) = true
      · rw [if_pos ha, ih, List.filter_cons]
        by_cases hid : row_identity r = k
        · rw [if_pos (decide_eq_true hid)]
          have hne : rest.filter (fun r2 => decide (row_identity r2 = k)) ≠
              [] := by
            rw [List.any_eq_true] at ha
            obtain ⟨r2, hr2m, hr2⟩ := ha
            have hm : r2 ∈ rest.filter
                (fun r2 => decide (row_identity r2 = k)) := by
              rw [List.mem_filter]
              exact ⟨hr2m,
                decide_eq_true ((of_decide_eq_true hr2).trans hid)⟩
            intro hnil
            rw [hnil] at hm
            cases hm
          cases hfe : rest.filter (fun r2 => decide (row_identity r2 = k)) with
          | nil => exact absurd hfe hne
          | cons b t => rw [List.getLast?_cons_cons]
        · rw [if_neg (fun hc => hid (of_decide_eq_true hc))]
      · rw [if_neg ha, List.filter_cons, List.filter_cons]
        by_cases hid : row_identity r = k
        · rw [if_pos (decide_eq_true hid), if_pos (decide_eq_true hid), ih]
          have hfe : rest.filter (fun r2 => decide (row_identity r2 = k)) =
              [] := by
            rw [List.filter_eq_nil_iff]
            intro a ham hpa
            apply ha
            rw [List.any_eq_true]
            exact ⟨a, ham,
              decide_eq_true ((of_decide_eq_true hpa).trans hid.symm)⟩
          rw [hfe]
          rfl
        · rw [if_neg (fun hc => hid (of_decide_eq_true hc)),
            if_neg (fun hc => hid (of_decide_eq_true hc)), ih]

/-- C5: the merged table carries at most one row per normalised identity
pair — the trimmed string renderings of Project Name and Contract Unit
Number, under which numeric `12` and text `"12"` collide — and for every
identity the retained row is the last occurrence of that identity in
concatenation order (spreadsheet frame first, key-value frame second, so
the key-value row wins), carried through column projection and date
coercion. -/
theorem claim_C5_last_occurrence_wins (polaris : Option (List CRow))
    (hso : List CRow) (cols : List String) (k : Cell × Cell)
    (hp : "Project Name" ∈ cols) (hu : "Contract Unit Number" ∈ cols) :
    (combine_sources polaris hso cols).Pairwise
      (fun a b => row_identity a ≠ row_identity b) ∧
    (combine_sources polaris hso cols).filter
        (fun r => decide (row_identity r = k)) =
      (((concat_normalized polaris hso).filter
          (fun r => decide (row_identity r = k))).getLast?).toList.map
        (fun r => coerce_dates_row (project_columns cols r)) := by
  have core : ∀ l : List CRow,
      ((dedup_keep_last (l.map normalize_key_columns)).map
          (fun r => coerce_dates_row (project_columns cols r))).Pairwise
        (fun a b => row_identity a ≠ row_identity b) ∧
      ((dedup_keep_last (l.map normalize_key_columns)).map
          (fun r => coerce_dates_row (project_columns cols r))).filter
          (fun r => decide (row_identity r = k)) =
        (((l.map normalize_key_columns).filter
            (fun r => decide (row_identity r = k))).getLast?).toList.map
          (fun r => coerce_dates_row (project_columns cols r)) := by
    intro l
    constructor
    · rw [List.pairwise_map]
      refine List.Pairwise.imp ?_ (dedup_keep_last_pairwise _)
      intro a b hab
      rw [row_identity_image cols a hp hu, row_identity_image cols b hp hu]
      exact hab
    · rw [List.filter_map]
      have hpf : ((fun r => decide (row_identity r = k)) ∘
          (fun r => coerce_dates_row (project_columns cols r))) =
          (fun r => decide (row_identity r = k)) := by
        funext r
        show decide
          (row_identity (coerce_dates_row (project_columns cols r)) = k) = _
        rw [row_identity_image cols r hp hu]
      rw [hpf, dedup_keep_last_filter]
  cases polaris with
  | none =>
      cases hso with
      | nil => exact ⟨List.Pairwise.nil, rfl⟩
      | cons r t =>
          have hc : combine_sources none (r :: t) cols =
              ((dedup_keep_last (((r :: t) ++ []).map
                  normalize_key_columns)).map
                (project_columns cols)).map coerce_dates_row := rfl
          rw [hc, List.map_map]
          exact core ((r :: t) ++ [])
  | some A =>
      cases hso with
      | nil =>
          have hc : combine_sources (some A) [] cols =
              ((dedup_keep_last ((A ++ []).map normalize_key_columns)).map
                (project_columns cols)).map coerce_dates_row := rfl
          rw [hc, List.map_map]
          exact core (A ++ [])
      | cons r t =>
          have hc : combine_sources (some A) (r :: t) cols =
              ((dedup_keep_last ((A ++ ((r :: t) ++ [])).map
                  normalize_key_columns)).map
                (project_columns cols)).map coerce_dates_row := rfl
          rw [hc, List.map_map]
          exact core (A ++ ((r :: t) ++ []))

theorem claim_C5_witness :
    "Project Name" ∈ cols5 ∧ "Contract Unit Number" ∈ cols5 ∧
    ((combine_sources (some [ssRow5]) [kvRow5] cols5).Pairwise
        (fun a b => row_identity a ≠ row_identity b) ∧
      (combine_sources (some [ssRow5]) [kvRow5] cols5).filter
          (fun r => decide (row_identity r =
            (.cstr "Bay Village", .cstr "12"))) =
        (((concat_normalized (some [ssRow5]) [kvRow5]).filter
            (fun r => decide (row_identity r =
              (.cstr "Bay Village", .cstr "12")))).getLast?).toList.map
          (fun r => coerce_dates_row (project_columns cols5 r))) ∧
    combine_sources (some [ssRow5]) [kvRow5] cols5 =
      [[("Project Name", .cstr "Bay Village"),
        ("Contract Unit Number", .cstr "12"),
        ("Status", .cstr "Closed")]] :=
  ⟨by decide, by decide,
    claim_C5_last_occurrence_wins (some [ssRow5]) [kvRow5] cols5
      (.cstr "Bay Village", .cstr "12") (by decide) (by decide),
    by decide⟩

/-! ## Claim C6: idempotence of the merger -/

theorem dedup_keep_last_eq_self (l : List CRow)
    (hd : l.Pairwise (fun a b => row_identity a ≠ row_identity b)) :
    dedup_keep_last l = l := by
  induction l with
  | nil => rfl
  | cons r rest ih =>
      rw [List.pairwise_cons] at hd
      unfold dedup_keep_last
      have ha : ¬ (rest.any
          (fun r2 => decide (row_identity r2 = row_identity r)) = true) := by
        rw [List.any_eq_true]
        rintro ⟨x, hx, hpx⟩
        exact hd.1 x hx (of_decide_eq_true hpx).symm
      rw [if_neg ha, ih hd.2]

theorem dedup_keep_last_append_left (l1 l2 : List CRow)
    (h : ∀ r ∈ l1, ∃ r2 ∈ l2, row_identity r2 = row_identity r) :
    dedup_keep_last (l1 ++ l2) = dedup_keep_last l2 := by
  induction l1 with
  | nil => rfl
  | cons r rest ih =>
      have ha : (rest ++ l2).any
          (fun r2 => decide (row_identity r2 = row_identity r)) = true := by
        rw [List.any_eq_true]
        obtain ⟨r2, hm, he⟩ := h r (List.mem_cons_self _ _)
        exact ⟨r2, List.mem_append_right rest hm, decide_eq_true he⟩
      have step : dedup_keep_last ((r :: rest) ++ l2) =
          dedup_keep_last (rest ++ l2) := by
        show (if ((rest ++ l2).any
              (fun r2 => decide (row_identity r2 = row_identity r))) = true
            then dedup_keep_last (rest ++ l2)
            else r :: dedup_keep_last (rest ++ l2)) =
          dedup_keep_last (rest ++ l2)
        rw [if_pos ha]
      rw [step]
      exact ih (fun x hx => h x (List.mem_cons_of_mem r hx))

/-- C6 (amended): when the normalised key cells of `A` are pairwise
distinct as identities, merging `A` with an empty second dataset yields
the image of `A` under key normalisation, column projection and date
coercion — not `A` itself, since the key cells are string-coerced and
trimmed — merging `A` with a copy of itself yields exactly the same
table, and that table has exactly as many rows as `A`.  Without the
distinctness hypothesis rows are dropped by the keep-last dedup. -/
theorem claim_C6_merge_idempotence (A : List CRow) (cols : List String)
    (hd : (A.map normalize_key_columns).Pairwise
      (fun a b => row_identity a ≠ row_identity b)) :
    combine_sources (some A) [] cols =
      A.map (fun r =>
        coerce_dates_row (project_columns cols (normalize_key_columns r))) ∧
    combine_sources (some A) A cols = combine_sources (some A) [] cols ∧
    (combine_sources (some A) A cols).length = A.length := by
  have h1 : combine_sources (some A) [] cols =
      A.map (fun r =>
        coerce_dates_row (project_columns cols (normalize_key_columns r))) := by
    have hc : combine_sources (some A) [] cols =
        ((dedup_keep_last ((A ++ []).map normalize_key_columns)).map
          (project_columns cols)).map coerce_dates_row := rfl
    rw [hc, List.map_map, List.append_nil, dedup_keep_last_eq_self _ hd,
      List.map_map]
    rfl
  have h2 : combine_sources (some A) A cols =
      combine_sources (some A) [] cols := by
    cases A with
    | nil => rfl
    | cons r t =>
        have hcA : combine_sources (some (r :: t)) (r :: t) cols =
            ((dedup_keep_last (((r :: t) ++ ((r :: t) ++ [])).map
                normalize_key_columns)).map
              (project_columns cols)).map coerce_dates_row := rfl
        have hc0 : combine_sources (some (r :: t)) [] cols =
            ((dedup_keep_last (((r :: t) ++ []).map
                normalize_key_columns)).map
              (project_columns cols)).map coerce_dates_row := rfl
        rw [hcA, hc0]
        simp only [List.append_nil]
        rw [List.map_append,
          dedup_keep_last_append_left _ _ (fun x hx => ⟨x, hx, rfl⟩)]
  have h3 : (combine_sources (some A) A cols).length = A.length := by
    rw [h2, h1, List.length_map]
  exact ⟨h1, h2, h3⟩

/-- Counterexample to the frozen C6 wording: a dataset with two rows of
the same identity comes out of the merge with one row, both against an
empty second dataset and against a copy of itself — not `|A|` rows and
not `A` unchanged. -/
theorem claim_C6_counterexample :
    [rA6, rB6].length = 2 ∧
    (combine_sources (some [rA6, rB6]) [] cols6).length = 1 ∧
    (combine_sources (some [rA6, rB6]) [rA6, rB6] cols6).length = 1 :=
  ⟨rfl, by decide, by decide⟩

theorem claim_C6_witness :
    ([rA6, rC6].map normalize_key_columns).Pairwise
      (fun a b => row_identity a ≠ row_identity b) ∧
    (combine_sources (some [rA6, rC6]) [] cols6 =
      [rA6, rC6].map (fun r =>
        coerce_dates_row (project_columns cols6 (normalize_key_columns r))) ∧
    combine_sources (some [rA6, rC6]) [rA6, rC6] cols6 =
      combine_sources (some [rA6, rC6]) [] cols6 ∧
    (combine_sources (some [rA6, rC6]) [rA6, rC6] cols6).length =
      [rA6, rC6].length) :=
  ⟨by decide, claim_C6_merge_idempotence [rA6, rC6] cols6 (by decide)⟩
